import Mathlib

/-!
Verification development for the Miniiniob storage and execution kernel.

The definitions below are a shallow embedding of the C++ sources:
  src/observer/storage/common/table.cpp   (Table::insert_record, make_record,
    is_legal, update_record, create_index, scan_record, scan_record_by_index,
    insert_entry_of_indexes, delete_entry_of_indexes, rollback_insert, ...)
  src/observer/sql/executor/value.h       (IntValue/FloatValue/StringValue::compare)
  src/observer/sql/parser/parse.cpp       (date2num, check_date_data_convert,
    check_date_format, value_init_string)

Machine integers are modelled as Nat/Int; record payloads are lists of bytes
(List Nat); C floats are modelled as rationals.  Components of the repository
whose sources are not available (table_meta.cpp, trx.cpp, record_manager.cpp,
the B+-tree) are modelled from the specification; each such definition carries
a doc comment saying so.
-/

namespace MiniDB

/-- Result codes returned to the client (the subset relevant here), from the
repository's RC enum. -/
inductive RC where
  | SUCCESS
  | INVALID_ARGUMENT
  | SCHEMA_TABLE_EXIST
  | SCHEMA_TABLE_NAME_ILLEGAL
  | SCHEMA_INDEX_EXIST
  | SCHEMA_FIELD_MISSING
  | SCHEMA_FIELD_NAME_ILLEGAL
  | SCHEMA_FIELD_TYPE_MISMATCH
  | SCHEMA_FIELD_NOT_EXIST
  | RECORD_EOF
  | RECORD_INVALID_KEY
  | IOERR
  | GENERIC_ERROR
  deriving DecidableEq, Repr

/-- Attribute types of the SQL dialect (AttrType in the source). -/
inductive AttrType where
  | UNDEFINED
  | CHARS
  | INTS
  | FLOATS
  | DATES
  | NULLS
  deriving DecidableEq, Repr

/-- A parsed value: tagged payload bytes plus a null marker (struct Value of
parse_defs.h; the payload is the bytes behind the void pointer data). -/
structure Value where
  type : AttrType
  data : List Nat
  is_null : Bool
  deriving DecidableEq, Repr

/-- Length of a C string stored in a byte list: bytes before the first NUL.
Models strlen. -/
def cstrlen (l : List Nat) : Nat :=
  (l.takeWhile (fun b => b != 0)).length

/-- Reading n bytes starting from a buffer src, as memcpy does: bytes past the
end of src are unspecified in C and are modelled as 0. -/
def memSrc (src : List Nat) (n : Nat) : List Nat :=
  (src ++ List.replicate n 0).take n

/-- Overwrite the bytes of dst starting at offset off with src
(memcpy(dst + off, src, src.length)). -/
def writeBytes (dst : List Nat) (off : Nat) (src : List Nat) : List Nat :=
  dst.take off ++ src ++ dst.drop (off + src.length)

/-- Overwrite one byte of dst at offset off. -/
def setByte (dst : List Nat) (off : Nat) (b : Nat) : List Nat :=
  writeBytes dst off [b]

/-- Little-endian bytes of a 32-bit integer value. -/
def natToLE4 (n : Nat) : List Nat :=
  [n % 256, n / 256 % 256, n / 65536 % 256, n / 16777216 % 256]

theorem memSrc_length (src : List Nat) (n : Nat) : (memSrc src n).length = n := by
  simp [memSrc]

theorem memSrc_getD (src : List Nat) (n j : Nat) (hj : j < src.length) (hn : j < n) :
    (memSrc src n).getD j 0 = src.getD j 0 := by
  simp only [memSrc, List.getD_eq_getElem?_getD]
  rw [List.getElem?_take, if_pos hn, List.getElem?_append_left hj]

theorem writeBytes_length (dst src : List Nat) (off : Nat)
    (h : off + src.length ≤ dst.length) :
    (writeBytes dst off src).length = dst.length := by
  unfold writeBytes
  rw [List.length_append, List.length_append, List.length_take, List.length_drop]
  omega

theorem writeBytes_getD_low (dst src : List Nat) (off j : Nat)
    (hoff : off + src.length ≤ dst.length) (hj : j < off) :
    (writeBytes dst off src).getD j 0 = dst.getD j 0 := by
  unfold writeBytes
  rw [List.getD_eq_getElem?_getD, List.getD_eq_getElem?_getD]
  rw [List.getElem?_append_left (by rw [List.length_append, List.length_take]; omega)]
  rw [List.getElem?_append_left (by rw [List.length_take]; omega)]
  rw [List.getElem?_take, if_pos hj]

theorem writeBytes_getD_high (dst src : List Nat) (off j : Nat)
    (hoff : off + src.length ≤ dst.length) (hj : off + src.length ≤ j) :
    (writeBytes dst off src).getD j 0 = dst.getD j 0 := by
  have hlen : (dst.take off ++ src).length = off + src.length := by
    rw [List.length_append, List.length_take]; omega
  unfold writeBytes
  rw [List.getD_eq_getElem?_getD, List.getD_eq_getElem?_getD]
  rw [List.getElem?_append_right (by rw [hlen]; omega)]
  rw [hlen, List.getElem?_drop]
  congr 2
  omega

theorem writeBytes_getD_mid (dst src : List Nat) (off j : Nat)
    (hoff : off + src.length ≤ dst.length) (h1 : off ≤ j) (h2 : j < off + src.length) :
    (writeBytes dst off src).getD j 0 = src.getD (j - off) 0 := by
  have hlen : (dst.take off ++ src).length = off + src.length := by
    rw [List.length_append, List.length_take]; omega
  have htk : (dst.take off).length = off := by rw [List.length_take]; omega
  unfold writeBytes
  rw [List.getD_eq_getElem?_getD, List.getD_eq_getElem?_getD]
  rw [List.getElem?_append_left (by rw [hlen]; omega)]
  rw [List.getElem?_append_right (by rw [htk]; omega)]
  rw [htk]

theorem setByte_length (dst : List Nat) (off b : Nat) (h : off < dst.length) :
    (setByte dst off b).length = dst.length := by
  unfold setByte
  exact writeBytes_length dst [b] off (by simp; omega)

theorem setByte_getD_ne (dst : List Nat) (off b j : Nat) (hoff : off < dst.length)
    (hne : j ≠ off) :
    (setByte dst off b).getD j 0 = dst.getD j 0 := by
  unfold setByte
  rcases Nat.lt_or_ge j off with h | h
  · exact writeBytes_getD_low dst [b] off j (by simp; omega) h
  · exact writeBytes_getD_high dst [b] off j (by simp; omega) (by simp; omega)

theorem setByte_getD_eq (dst : List Nat) (off b : Nat) (hoff : off < dst.length) :
    (setByte dst off b).getD off 0 = b := by
  unfold setByte
  rw [writeBytes_getD_mid dst [b] off off (by simp; omega) (le_refl off) (by simp)]
  simp

/-- Column metadata (FieldMeta): name, type, byte offset in the record, byte
length, nullability. -/
structure FieldMeta where
  name : String
  type : AttrType
  offset : Nat
  len : Nat
  nullable : Bool
  deriving DecidableEq, Repr

/-- Index metadata: index name plus the single column it is built on. -/
structure IndexMeta where
  name : String
  field : String
  deriving DecidableEq, Repr

/-- Table metadata.  Modelled from the spec: table_meta.cpp is not among the
sources; the spec fixes an ordered field list whose first sys_field_num
columns are reserved for transaction bookkeeping, plus the index list. -/
structure TableMeta where
  name : String
  fields : List FieldMeta
  sysFieldNum : Nat
  indexes : List IndexMeta
  deriving DecidableEq, Repr

/-- Number of fields, system fields included (TableMeta::field_num). -/
def TableMeta.fieldNum (m : TableMeta) : Nat := m.fields.length

/-- Modelled from the spec and from the uses in table.cpp (table_meta.cpp is
absent): record_size is the end of the packed payload, i.e. the sum of all
field lengths; make_record then appends one null-flag byte per user field
beyond it. -/
def TableMeta.recordSize (m : TableMeta) : Nat := (m.fields.map (fun f => f.len)).sum

/-- Number of user (non-system) fields. -/
def TableMeta.userFieldNum (m : TableMeta) : Nat := m.fieldNum - m.sysFieldNum

/-- Modelled from the spec: TableMeta::index(name) looks an index up by name. -/
def TableMeta.indexByName (m : TableMeta) (nm : String) : Option IndexMeta :=
  m.indexes.find? (fun im => im.name == nm)

/-- Modelled from the spec: TableMeta::find_index_by_field finds an index built
on the given column. -/
def TableMeta.find_index_by_field (m : TableMeta) (fd : String) : Option IndexMeta :=
  m.indexes.find? (fun im => im.field == fd)

/-- Modelled from the spec: TableMeta::field(name) looks a field up by name. -/
def TableMeta.findFieldByName (m : TableMeta) (nm : String) : Option FieldMeta :=
  m.fields.find? (fun f => f.name == nm)

/-- TableMeta::find_field_index_by_name; the source returns -1 when the field
is absent, modelled as none. -/
def TableMeta.find_field_index_by_name (m : TableMeta) (nm : String) : Option Nat :=
  m.fields.findIdx? (fun f => f.name == nm)

/-- Table::is_legal of table.cpp: checks nullability, type match and CHARS
length for one value against one column. -/
def is_legal (v : Value) (f : FieldMeta) : RC :=
  if v.type = AttrType.NULLS ∧ f.nullable = false then RC.SCHEMA_FIELD_NAME_ILLEGAL
  else if v.type ≠ AttrType.NULLS ∧ f.type ≠ v.type then RC.SCHEMA_FIELD_TYPE_MISMATCH
  else if v.type = AttrType.CHARS ∧ f.len < cstrlen v.data then RC.SCHEMA_FIELD_MISSING
  else RC.SUCCESS

/-- The per-type sentinel bytes make_record stores for a NULL value: the
literal bytes of "NULL" for CHARS, the packed integer 19700101 for DATES,
zero for INTS and FLOATS, nothing for other types.  The source memcpy reads
field->len() bytes from the sentinel object; bytes past its end are
unspecified and modelled as 0. -/
def nullSentinel (t : AttrType) (len : Nat) : Option (List Nat) :=
  match t with
  | AttrType.CHARS => some (memSrc [78, 85, 76, 76, 0] len)
  | AttrType.DATES => some (memSrc (natToLE4 19700101) len)
  | AttrType.FLOATS => some (List.replicate len 0)
  | AttrType.INTS => some (memSrc (natToLE4 0) len)
  | _ => none

/-- The legality loop of Table::make_record: values are checked in order
against the user fields starting at index i; the first non-success code is
returned. -/
def firstIllegal (m : TableMeta) : List Value → Nat → RC
  | [], _ => RC.SUCCESS
  | v :: rest, i =>
    match m.fields[i]? with
    | none => RC.SUCCESS
    | some f =>
      let rc := is_legal v f
      if rc = RC.SUCCESS then firstIllegal m rest (i + 1) else rc

/-- One iteration of the copy loop of Table::make_record: write the payload of
user field i (a sentinel when the value is NULL) and its null-flag byte at
nfi + i. -/
def writeOneField (m : TableMeta) (nfi : Nat) (i : Nat) (v : Value) (buf : List Nat) :
    List Nat :=
  match m.fields[i + m.sysFieldNum]? with
  | none => buf
  | some f =>
    if v.is_null then
      let buf1 := match nullSentinel f.type f.len with
        | some s => writeBytes buf f.offset s
        | none => buf
      setByte buf1 (nfi + i) 1
    else
      setByte (writeBytes buf f.offset (memSrc v.data f.len)) (nfi + i) 0

/-- The copy loop of Table::make_record over all values. -/
def writeFields (m : TableMeta) (nfi : Nat) : List Value → Nat → List Nat → List Nat
  | [], _, buf => buf
  | v :: rest, i, buf => writeFields m nfi rest (i + 1) (writeOneField m nfi i v buf)

/-- Table::make_record of table.cpp: checks the arity, checks every value with
is_legal, then builds a buffer of record_size + value_num bytes (the extra
value_num bytes hold the null flags, placed after the end of the last field)
and copies every field payload and flag into it.  The fresh buffer from new
is uninitialised in C; its bytes are modelled as 0. -/
def make_record (m : TableMeta) (values : List Value) : Except RC (List Nat) :=
  if values.length + m.sysFieldNum ≠ m.fieldNum then Except.error RC.SCHEMA_FIELD_MISSING
  else
    let rc := firstIllegal m values m.sysFieldNum
    if rc ≠ RC.SUCCESS then Except.error rc
    else
      let nfi := match m.fields[values.length - 1 + m.sysFieldNum]? with
        | some f => f.offset + f.len
        | none => 0
      Except.ok (writeFields m nfi values 0 (List.replicate (m.recordSize + values.length) 0))

/-- The record heap, modelled from the spec (record_manager.cpp is absent):
a finite map from RID (collapsed to one Nat) to the stored bytes. -/
abbrev Heap := List (Nat × List Nat)

/-- A fresh RID for an insertion: one past the largest RID in use.  Modelled
from the spec (the record manager picks a free slot, which is never the slot
of a live record). -/
def freshRid (h : Heap) : Nat :=
  (h.map Prod.fst).foldr max 0 + 1

/-- Modelled from the spec: RecordFileHandler::delete_record clears the slot
of the given RID, failing when the slot is not occupied. -/
def heapDelete (h : Heap) (rid : Nat) : RC × Heap :=
  if h.any (fun p => p.fst == rid) then
    (RC.SUCCESS, h.filter (fun p => p.fst != rid))
  else (RC.RECORD_INVALID_KEY, h)

/-- Modelled from the spec: RecordFileHandler::get_record. -/
def heapGet (h : Heap) (rid : Nat) : Option (List Nat) :=
  (h.find? (fun p => p.fst == rid)).map Prod.snd

/-- Modelled from the spec: RecordFileHandler::update_record overwrites the
record bytes in place. -/
def heapUpdate (h : Heap) (rid : Nat) (bytes : List Nat) : Heap :=
  h.map (fun p => if p.fst == rid then (p.fst, bytes) else p)

/-- One open B+-tree index of a table.  The tree itself is modelled from the
spec (bplus_tree.cpp is absent) as the list of its (key, RID) entries, where
the key is the indexed column's bytes plus the trailing null-flag byte.  The
failNext flag is an environment oracle making insert_entry fail, standing for
the I/O and duplicate-key failures of the real tree. -/
structure IndexState where
  meta : IndexMeta
  keyOff : Nat
  keyLen : Nat
  nullOff : Nat
  entries : List (List Nat × Nat)
  failNext : Bool
  deriving DecidableEq, Repr

/-- Key extraction from record bytes, modelled from the spec: the column bytes
at field.offset/length plus the trailing null-flag byte. -/
def extractKey (idx : IndexState) (rec : List Nat) : List Nat :=
  (rec.drop idx.keyOff).take idx.keyLen ++ [rec.getD idx.nullOff 0]

/-- Modelled from the spec: Index::insert_entry appends a (key, RID) pair, or
fails when the oracle says so. -/
def IndexState.insert_entry (idx : IndexState) (rec : List Nat) (rid : Nat) :
    RC × IndexState :=
  if idx.failNext then (RC.GENERIC_ERROR, idx)
  else (RC.SUCCESS, { idx with entries := idx.entries ++ [(extractKey idx rec, rid)] })

/-- Remove the first occurrence of an entry from an entry list. -/
def removeFirstEntry : List (List Nat × Nat) → List Nat × Nat → List (List Nat × Nat)
  | [], _ => []
  | e :: rest, x => if e = x then rest else e :: removeFirstEntry rest x

/-- Modelled from the spec: Index::delete_entry removes the (key, RID) pair,
answering RECORD_INVALID_KEY when no such entry exists. -/
def IndexState.delete_entry (idx : IndexState) (rec : List Nat) (rid : Nat) :
    RC × IndexState :=
  let k := (extractKey idx rec, rid)
  if k ∈ idx.entries then
    (RC.SUCCESS, { idx with entries := removeFirstEntry idx.entries k })
  else (RC.RECORD_INVALID_KEY, idx)

/-- Table::insert_entry_of_indexes of table.cpp: insert into every index in
order, stopping at the first failure. -/
def insert_entry_of_indexes : List IndexState → List Nat → Nat → RC × List IndexState
  | [], _, _ => (RC.SUCCESS, [])
  | idx :: rest, rec, rid =>
    let r := idx.insert_entry rec rid
    if r.1 = RC.SUCCESS then
      let rr := insert_entry_of_indexes rest rec rid
      (rr.1, r.2 :: rr.2)
    else (r.1, r.2 :: rest)

/-- The loop of Table::delete_entry_of_indexes: rc carries the code of the
last delete; when error_on_not_exists is set a RECORD_INVALID_KEY answer does
not stop the loop. -/
def delete_entry_loop : List IndexState → List Nat → Nat → Bool → RC → RC × List IndexState
  | [], _, _, _, rc => (rc, [])
  | idx :: rest, rec, rid, errNE, _ =>
    let r := idx.delete_entry rec rid
    if r.1 = RC.SUCCESS ∨ (r.1 = RC.RECORD_INVALID_KEY ∧ errNE) then
      let rr := delete_entry_loop rest rec rid errNE r.1
      (rr.1, r.2 :: rr.2)
    else (r.1, r.2 :: rest)

/-- Table::delete_entry_of_indexes of table.cpp. -/
def delete_entry_of_indexes (idxs : List IndexState) (rec : List Nat) (rid : Nat)
    (errNE : Bool) : RC × List IndexState :=
  delete_entry_loop idxs rec rid errNE RC.SUCCESS

/-- One logged transaction operation, modelled from the spec: the per-txn
operation log holds {op_kind, RID, old/new bytes} entries. -/
inductive TrxOp where
  | insertOp (rid : Nat)
  | deleteOp (rid : Nat)
  | updateOp (rid : Nat) (oldData newData : List Nat)
  deriving DecidableEq, Repr

/-- A transaction, modelled from the spec (trx.cpp is absent): its id, its
operation log, and an oracle flag standing for a failure of the logging
step. -/
structure Trx where
  id : Nat
  failLogInsert : Bool
  log : List TrxOp
  deriving DecidableEq, Repr

/-- Modelled from the spec: Trx::init_trx_info stamps the record header (the
first system field) with the transaction id. -/
def initTrxInfo (t : Trx) (bytes : List Nat) : List Nat :=
  writeBytes bytes 0 (natToLE4 t.id)

/-- Modelled from the spec: Trx::insert_record appends an INSERT entry to the
operation log; the oracle flag makes it fail. -/
def Trx.logInsert (t : Trx) (rid : Nat) : RC × Trx :=
  if t.failLogInsert then (RC.GENERIC_ERROR, t)
  else (RC.SUCCESS, { t with log := t.log ++ [TrxOp.insertOp rid] })

/-- The full state of one table: metadata, heap and open indexes. -/
structure TableState where
  meta : TableMeta
  heap : Heap
  indexes : List IndexState
  deriving DecidableEq, Repr

/-- The index phase of Table::insert_record: insert the record into every
index; on failure compensate by deleting the already inserted index entries
(error_on_not_exists = true) and the heap record, then return the failure. -/
def insertIndexPhase (s : TableState) (trx : Option Trx) (data1 : List Nat) (rid : Nat) :
    RC × TableState × Option Trx × Nat :=
  let ri := insert_entry_of_indexes s.indexes data1 rid
  if ri.1 ≠ RC.SUCCESS then
    let rd := delete_entry_of_indexes ri.2 data1 rid true
    let hh := heapDelete s.heap rid
    (ri.1, { s with heap := hh.2, indexes := rd.2 }, trx, rid)
  else (RC.SUCCESS, { s with indexes := ri.2 }, trx, rid)

/-- The header stamping applied before the heap insert: with a transaction
the header is stamped, without one the bytes are used as they are. -/
def trxStamp (trx : Option Trx) (data : List Nat) : List Nat :=
  match trx with
  | some t => initTrxInfo t data
  | none => data

/-- Table::insert_record(trx, record) of table.cpp: stamp the header for the
transaction, insert record_size + field_num bytes into the heap, log the
insertion with the transaction (deleting the heap record again when logging
fails), then insert into every index with compensation on failure. -/
def insert_record (s : TableState) (trx : Option Trx) (data : List Nat) :
    RC × TableState × Option Trx × Nat :=
  let data1 := trxStamp trx data
  let rid := freshRid s.heap
  let stored := memSrc data1 (s.meta.recordSize + s.meta.fieldNum)
  let heap1 := s.heap ++ [(rid, stored)]
  match trx with
  | some t =>
    let r := t.logInsert rid
    if r.1 ≠ RC.SUCCESS then
      (r.1, { s with heap := (heapDelete heap1 rid).2 }, some t, rid)
    else insertIndexPhase { s with heap := heap1 } (some r.2) data1 rid
  | none => insertIndexPhase { s with heap := heap1 } none data1 rid

/-- Table::insert_record(trx, value_num, values) of table.cpp: reject an empty
value list, build the record bytes with make_record, then insert them. -/
def insert_record_values (s : TableState) (trx : Option Trx) (values : List Value) :
    RC × TableState × Option Trx :=
  if values.isEmpty then (RC.INVALID_ARGUMENT, s, trx)
  else
    match make_record s.meta values with
    | Except.error rc => (rc, s, trx)
    | Except.ok data =>
      let r := insert_record s trx data
      (r.1, r.2.1, r.2.2.1)

/-- The null_field_index expression used by Table::update_record: the end of
the last field (offset + length of field(field_num - 1)). -/
def nfiOf (m : TableMeta) : Nat :=
  match m.fields[m.fieldNum - 1]? with
  | some lf => lf.offset + lf.len
  | none => 0

/-- The tail of Table::update_record(trx, record, attr, value) after the old
index entry has been deleted: check legality, overwrite the column payload,
overwrite the null-flag byte at null_field_index + i - 1 (i is the absolute
field index), write the record back, and re-insert the index entry with the
same compensation as insert_record on failure.  idxPos is the position of the
index found by Table::find_index, if any. -/
def updateApply (s : TableState) (idxPos : Option Nat) (rid : Nat) (data : List Nat)
    (i : Nat) (f : FieldMeta) (v : Value) : RC × TableState × List Nat :=
  let rc := is_legal v f
  if rc ≠ RC.SUCCESS then (rc, s, data)
  else
    let data1 := writeBytes data f.offset (memSrc v.data f.len)
    let data2 := setByte data1 (nfiOf s.meta + i - 1) (if v.is_null then 1 else 0)
    if s.heap.any (fun p => p.fst == rid) then
      let s1 := { s with heap := heapUpdate s.heap rid data2 }
      match idxPos with
      | none => (RC.SUCCESS, s1, data2)
      | some j =>
        match s1.indexes[j]? with
        | none => (RC.SUCCESS, s1, data2)
        | some idx =>
          let r := idx.insert_entry data2 rid
          if r.1 = RC.SUCCESS then
            (RC.SUCCESS, { s1 with indexes := s1.indexes.set j r.2 }, data2)
          else
            let rd := delete_entry_of_indexes (s1.indexes.set j r.2) data2 rid true
            let hh := heapDelete s1.heap rid
            (r.1, { s1 with indexes := rd.2, heap := hh.2 }, data2)
    else (RC.RECORD_INVALID_KEY, s, data2)

/-- Table::update_record(trx, record, attribute_name, value) of table.cpp.
The transactional branch of the source is guarded by if (false) and never
runs, so the trx argument is unused.  Note that the source looks the index up
with Table::find_index, which compares the INDEX NAME against the attribute
name. -/
def update_record (s : TableState) (_trx : Option Trx) (rid : Nat) (data : List Nat)
    (attrName : String) (v : Value) : RC × TableState × List Nat :=
  match s.meta.find_field_index_by_name attrName with
  | none => (RC.SCHEMA_FIELD_NOT_EXIST, s, data)
  | some i =>
    match s.meta.fields[i]? with
    | none => (RC.SCHEMA_FIELD_NOT_EXIST, s, data)
    | some f =>
      match s.indexes.findIdx? (fun idx => idx.meta.name == attrName) with
      | some j =>
        match s.indexes[j]? with
        | none => updateApply s none rid data i f v
        | some idx =>
          let r := idx.delete_entry data rid
          if r.1 ≠ RC.SUCCESS then (r.1, { s with indexes := s.indexes.set j r.2 }, data)
          else updateApply { s with indexes := s.indexes.set j r.2 } (some j) rid data i f v
      | none => updateApply s none rid data i f v

/-- Table::rollback_insert of table.cpp: fetch the record, delete its entries
from every index (error_on_not_exists = false), then delete it from the
heap. -/
def rollback_insert (s : TableState) (rid : Nat) : RC × TableState :=
  match heapGet s.heap rid with
  | none => (RC.RECORD_INVALID_KEY, s)
  | some data =>
    let rd := delete_entry_of_indexes s.indexes data rid false
    if rd.1 ≠ RC.SUCCESS then (rd.1, { s with indexes := rd.2 })
    else
      let hh := heapDelete s.heap rid
      (hh.1, { s with indexes := rd.2, heap := hh.2 })

/-- Modelled from the spec: the deleted flag lives in the record header and is
monotonic until commit; it is modelled as the top bit of header byte 3. -/
def setDeletedFlag (bytes : List Nat) : List Nat :=
  setByte bytes 3 (bytes.getD 3 0 % 128 + 128)

/-- Modelled from the spec: clearing the deleted flag (rollback of a delete
updates the record in place). -/
def clearDeletedFlag (bytes : List Nat) : List Nat :=
  setByte bytes 3 (bytes.getD 3 0 % 128)

/-- Undo of one logged operation, modelled from the spec: rollback calls the
matching rollback_* of the table (rollback_insert removes the record from the
indexes and the heap; rollback of a delete clears the deleted flag; rollback
of an update restores the old bytes). -/
def rollbackOne (s : TableState) (op : TrxOp) : TableState :=
  match op with
  | TrxOp.insertOp rid => (rollback_insert s rid).2
  | TrxOp.deleteOp rid =>
    match heapGet s.heap rid with
    | none => s
    | some data => { s with heap := heapUpdate s.heap rid (clearDeletedFlag data) }
  | TrxOp.updateOp rid oldData _ =>
    { s with heap := heapUpdate s.heap rid oldData }

/-- Modelled from the spec: Trx::rollback iterates the operation log in
reverse and undoes each entry. -/
def Trx.rollback (t : Trx) (s : TableState) : TableState :=
  t.log.reverse.foldl rollbackOne s

/-- Modelled from the spec: the record owner stamped in the header (the
32-bit id without the deleted bit). -/
def ownerOf (bytes : List Nat) : Nat :=
  bytes.getD 0 0 + 256 * bytes.getD 1 0 + 65536 * bytes.getD 2 0 +
    16777216 * (bytes.getD 3 0 % 128)

/-- Modelled from the spec: the deleted flag of the record header. -/
def deletedFlag (bytes : List Nat) : Nat := bytes.getD 3 0 / 128

/-- Modelled from the spec: a record is visible to transaction T iff its owner
is 0 (committed) and it is not deleted, or its owner is T itself. -/
def Trx.is_visible (t : Trx) (bytes : List Nat) : Bool :=
  (ownerOf bytes == 0 && deletedFlag bytes == 0) || ownerOf bytes == t.id

/-- The delivery loop of the full-heap path of Table::scan_record: the scanner
hands over the live records passing the filter (the filter is applied inside
the record scanner); the loop counts only records actually delivered against
the limit. -/
def scan_record_loop (visible : Nat × List Nat → Bool) :
    List (Nat × List Nat) → Nat → List (Nat × List Nat)
  | [], _ => []
  | r :: rest, lim =>
    if lim = 0 then []
    else if visible r then r :: scan_record_loop visible rest (lim - 1)
    else scan_record_loop visible rest lim

/-- The delivery loop of Table::scan_record_by_index: for every entry fetched
from the index scanner the record is read and delivered only when it is
visible and passes the filter, but record_count is incremented on EVERY
iteration. -/
def scan_by_index_loop (visible passes : Nat × List Nat → Bool) :
    List (Nat × List Nat) → Nat → List (Nat × List Nat)
  | [], _ => []
  | r :: rest, lim =>
    if lim = 0 then []
    else if visible r && passes r then r :: scan_by_index_loop visible passes rest (lim - 1)
    else scan_by_index_loop visible passes rest (lim - 1)

/-- Modelled from the spec: common::is_blank (its source is absent) holds for
a string of blanks only. -/
def isBlank (s : String) : Bool := s.toList.all (fun c => c == ' ')

/-- Table::create_index of table.cpp: reject blank names, fail with
SCHEMA_INDEX_EXIST when the index name is taken or the column already has an
index, fail with SCHEMA_FIELD_MISSING when the column does not exist;
otherwise create the B+-tree, bulk-load it from a full scan, and append it to
the live index list and the metadata. -/
def create_index (s : TableState) (trx : Option Trx) (indexName attrName : String) :
    RC × TableState :=
  if isBlank indexName || isBlank attrName then (RC.INVALID_ARGUMENT, s)
  else if (s.meta.indexByName indexName).isSome ||
      (s.meta.find_index_by_field attrName).isSome then
    (RC.SCHEMA_INDEX_EXIST, s)
  else
    match s.meta.findFieldByName attrName with
    | none => (RC.SCHEMA_FIELD_MISSING, s)
    | some f =>
      let fi := (s.meta.find_field_index_by_name attrName).getD 0
      let nfi := match s.meta.fields[s.meta.fieldNum - 1]? with
        | some lf => lf.offset + lf.len
        | none => 0
      let newIdx : IndexState :=
        { meta := { name := indexName, field := attrName }
          keyOff := f.offset
          keyLen := f.len
          nullOff := nfi + (fi - s.meta.sysFieldNum)
          entries := []
          failNext := false }
      let vis := fun (p : Nat × List Nat) => match trx with
        | none => true
        | some t => t.is_visible p.2
      let loaded :=
        { newIdx with entries := (s.heap.filter vis).map (fun p => (extractKey newIdx p.2, p.1)) }
      (RC.SUCCESS,
        { s with
          meta := { s.meta with indexes := s.meta.indexes ++ [loaded.meta] }
          indexes := s.indexes ++ [loaded] })

/-- IntValue of value.h: a 32-bit integer tuple value with a null marker. -/
structure IntValue where
  value : Int
  is_null : Bool
  deriving DecidableEq, Repr

/-- IntValue::compare of value.h: -1 whenever either side is null, otherwise
the difference of the two integers. -/
def IntValue.compare (a b : IntValue) : Int :=
  if a.is_null || b.is_null then -1 else a.value - b.value

/-- FloatValue of value.h; the C float payload is modelled as a rational. -/
structure FloatValue where
  value : Rat
  is_null : Bool
  deriving DecidableEq, Repr

/-- FloatValue::compare of value.h: -1 whenever either side is null, otherwise
the epsilon comparison with absolute epsilon 1e-6. -/
def FloatValue.compare (a b : FloatValue) : Int :=
  if a.is_null || b.is_null then -1
  else
    let r := a.value - b.value
    if -(1 / 1000000) < r ∧ r < 1 / 1000000 then 0
    else if 0 < r then 1
    else if r < 0 then -1
    else 0

/-- StringValue of value.h. -/
structure StringValue where
  value : List Nat
  is_null : Bool
  deriving DecidableEq, Repr

/-- Sign-level byte-wise lexicographic comparison. -/
def lexCompareBytes : List Nat → List Nat → Int
  | [], [] => 0
  | [], _ :: _ => -1
  | _ :: _, [] => 1
  | a :: as_, b :: bs => if a < b then -1 else if b < a then 1 else lexCompareBytes as_ bs

/-- strcmp on C strings stored in byte lists (sign of the result). -/
def strcmpBytes (a b : List Nat) : Int :=
  lexCompareBytes (a.takeWhile (fun x => x != 0)) (b.takeWhile (fun x => x != 0))

/-- StringValue::compare of value.h: -1 whenever either side is null,
otherwise strcmp on the two strings. -/
def StringValue.compare (a b : StringValue) : Int :=
  if a.is_null || b.is_null then -1 else strcmpBytes a.value b.value

/-- One step of the right-to-left digit loop of date2num in parse.cpp: i is
the position of the character c in a string of length len; num and mul are
the accumulator and the current magnitude.  (The subtraction c - 48 is the C
expression s[i] - '0'; the loop only ever sees digits and dashes.) -/
def date2numStep (len i c : Nat) (acc : Nat × Nat) : Nat × Nat :=
  let num := acc.1
  let mul := acc.2
  if c ≠ 45 then (num + mul * (c - 48), mul * 10)
  else if i = len - 2 then (num, mul * 10)
  else if i = len - 5 then (if mul = 1000 then (num, mul * 10) else (num, mul))
  else if i = len - 4 then (num, mul * 10)
  else (num, mul)

/-- The loop of date2num: the accumulator flows from the last character to the
first, mirroring the for (i = len-1; i >= 0; i--) loop. -/
def date2numAux (len : Nat) : Nat → List Nat → Nat × Nat
  | _, [] => (0, 1)
  | i, c :: rest => date2numStep len i c (date2numAux len (i + 1) rest)

/-- date2num of parse.cpp: parse yyyy-mm-dd / yyyy-m-dd / yyyy-mm-d / yyyy-m-d
into the packed integer YYYYMMDD. -/
def date2num (s : List Nat) : Nat := (date2numAux s.length 0 s).1

/-- check_date_data_convert of parse.cpp: the caller passes t = 1; every
failed check overwrites t with 0; the packed integer and the final t are
returned. -/
def check_date_data_convert (s : List Nat) (t0 : Nat) : Nat × Nat :=
  let num := date2num s
  let t1 := if num < 19700101 ∨ 20380131 < num then 0 else t0
  let days := num % 100
  let t2 := if 31 < days ∨ days < 1 then 0 else t1
  let mons := num % 10000 / 100
  let t3 := if 12 < mons ∨ mons < 1 then 0 else t2
  let years := num / 10000
  let t4 :=
    if mons = 2 then
      if years % 4 = 0 then (if 29 < days then 0 else t3)
      else (if 28 < days then 0 else t3)
    else t3
  let t5 :=
    if mons = 4 ∨ mons = 6 ∨ mons = 9 ∨ mons = 11 then (if 30 < days then 0 else t4)
    else (if 31 < days then 0 else t4)
  (num, t5)

/-- ASCII digit test. -/
def isDigitByte (c : Nat) : Bool := decide (48 ≤ c ∧ c ≤ 57)

/-- check_date_format of parse.cpp: the anchored regex
4 digits, dash, 1-2 digits, dash, 1-2 digits, modelled as a shape predicate
over the byte list (45 is the dash). -/
def check_date_format (s : List Nat) : Bool :=
  match s with
  | [a, b, c, d, h1, m1, h2, e1] =>
    isDigitByte a && isDigitByte b && isDigitByte c && isDigitByte d &&
      (h1 == 45) && isDigitByte m1 && (h2 == 45) && isDigitByte e1
  | [a, b, c, d, h1, x1, x2, x3, x4] =>
    isDigitByte a && isDigitByte b && isDigitByte c && isDigitByte d && (h1 == 45) &&
      ((isDigitByte x1 && isDigitByte x2 && (x3 == 45) && isDigitByte x4) ||
        (isDigitByte x1 && (x2 == 45) && isDigitByte x3 && isDigitByte x4))
  | [a, b, c, d, h1, m1, m2, h2, e1, e2] =>
    isDigitByte a && isDigitByte b && isDigitByte c && isDigitByte d && (h1 == 45) &&
      isDigitByte m1 && isDigitByte m2 && (h2 == 45) && isDigitByte e1 && isDigitByte e2
  | _ => false

/-- value_init_string of parse.cpp: a NULL literal keeps type NULLS; a string
matching the date format becomes a DATES value holding the packed integer
when the calendar check passes, and falls back to a plain CHARS value
otherwise. -/
def value_init_string (v : List Nat) (is_null : Bool) : Value :=
  if is_null then { type := AttrType.NULLS, data := v, is_null := true }
  else if check_date_format v then
    let r := check_date_data_convert v 1
    if r.2 ≠ 0 then { type := AttrType.DATES, data := natToLE4 r.1, is_null := false }
    else { type := AttrType.CHARS, data := v, is_null := false }
  else { type := AttrType.CHARS, data := v, is_null := false }

/-- Gregorian leap year, following the words of the spec. -/
def isLeapGregorian (y : Nat) : Bool :=
  decide ((y % 4 = 0 ∧ y % 100 ≠ 0) ∨ y % 400 = 0)

/-- Length of a month in the Gregorian calendar. -/
def monthLength (leap : Bool) (m : Nat) : Nat :=
  if m = 2 then (if leap then 29 else 28)
  else if m = 4 ∨ m = 6 ∨ m = 9 ∨ m = 11 then 30
  else 31

/-- A possible Gregorian calendar date, following the words of the spec. -/
def validGregorianDate (y m d : Nat) : Prop :=
  1 ≤ m ∧ m ≤ 12 ∧ 1 ≤ d ∧ d ≤ monthLength (isLeapGregorian y) m

/-- The four ASCII digits of a year value below 10000. -/
def digit4 (y : Nat) : List Nat :=
  [48 + y / 1000 % 10, 48 + y / 100 % 10, 48 + y / 10 % 10, 48 + y % 10]

/-- Two ASCII digits. -/
def digit2 (x : Nat) : List Nat := [48 + x / 10 % 10, 48 + x % 10]

/-- One ASCII digit. -/
def digit1 (x : Nat) : List Nat := [48 + x % 10]

/-- The date literal yyyy-m(m)-d(d): m2 and d2 choose the two-digit forms.
Ranging over y less than 10000, m and d (two-digit forms) below 100 or (one-digit
forms) below 10, these literals are exactly the strings matching the date
regex. -/
def dateLit (y m d : Nat) (m2 d2 : Bool) : List Nat :=
  digit4 y ++ [45] ++ (if m2 then digit2 m else digit1 m) ++ [45] ++
    (if d2 then digit2 d else digit1 d)

/-! ## Claim C8: NULL never compares equal -/

/-- C8: for every pair of tuple values of the same kind (Int, Float or
String), if either operand is NULL then compare never returns 0 — NULL
compares unequal to everything including NULL, so any equality predicate with
a NULL side excludes the row. -/
theorem c8_null_compare_not_equal :
    (∀ a b : IntValue, a.is_null = true ∨ b.is_null = true → IntValue.compare a b ≠ 0) ∧
    (∀ a b : FloatValue, a.is_null = true ∨ b.is_null = true → FloatValue.compare a b ≠ 0) ∧
    (∀ a b : StringValue, a.is_null = true ∨ b.is_null = true → StringValue.compare a b ≠ 0) := by
  refine ⟨?_, ?_, ?_⟩ <;>
    · intro a b h
      rcases h with h | h <;>
        simp [IntValue.compare, FloatValue.compare, StringValue.compare, h]

/-- Witness for C8 at concrete inputs: a NULL integer against 5. -/
theorem c8_null_compare_not_equal_witness :
    IntValue.compare { value := 5, is_null := true } { value := 5, is_null := false } ≠ 0 :=
  c8_null_compare_not_equal.1 _ _ (Or.inl rfl)

/-! ## Claim C7: create_index duplicate detection -/

/-- C7: Table::create_index returns SCHEMA_INDEX_EXIST exactly when an index
with the given name already exists or some existing index is already built on
the given column (given non-blank arguments, which otherwise fail earlier
with INVALID_ARGUMENT), and in that case the table state — metadata and index
list — is unchanged. -/
theorem c7_create_index_exist (s : TableState) (trx : Option Trx) (inm anm : String)
    (h1 : isBlank inm = false) (h2 : isBlank anm = false) :
    ((create_index s trx inm anm).1 = RC.SCHEMA_INDEX_EXIST ↔
      ((s.meta.indexByName inm).isSome = true ∨
        (s.meta.find_index_by_field anm).isSome = true)) ∧
    ((create_index s trx inm anm).1 = RC.SCHEMA_INDEX_EXIST →
      (create_index s trx inm anm).2 = s) := by
  unfold create_index
  rw [h1, h2]
  by_cases hex : ((s.meta.indexByName inm).isSome || (s.meta.find_index_by_field anm).isSome) = true
  · simp [hex]
    exact Bool.or_eq_true _ _ |>.mp hex
  · simp only [Bool.or_eq_true, not_or, Bool.not_eq_true] at hex
    rcases hf : s.meta.findFieldByName anm with _ | f <;>
      simp [hex.1, hex.2, hf]

/-- Witness for C7: a table that already has an index named ix on column a;
creating ix2 on the same column a answers SCHEMA_INDEX_EXIST and leaves the
state unchanged. -/
theorem c7_create_index_exist_witness :
    let m : TableMeta :=
      { name := "t"
        fields := [{ name := "__trx", type := AttrType.INTS, offset := 0, len := 4, nullable := false },
                   { name := "a", type := AttrType.INTS, offset := 4, len := 4, nullable := false }]
        sysFieldNum := 1
        indexes := [{ name := "ix", field := "a" }] }
    let s : TableState := { meta := m, heap := [], indexes := [] }
    ((create_index s none "ix2" "a").1 = RC.SCHEMA_INDEX_EXIST ↔
      ((m.indexByName "ix2").isSome = true ∨ (m.find_index_by_field "a").isSome = true)) ∧
    ((create_index s none "ix2" "a").1 = RC.SCHEMA_INDEX_EXIST →
      (create_index s none "ix2" "a").2 = s) :=
  c7_create_index_exist _ none "ix2" "a" (by decide) (by decide)

/-! ## Claim C5: CHARS length overflow -/

/-- When every value before position j is legal and the value at position j is
illegal, the legality loop of make_record answers exactly the code of
position j. -/
theorem firstIllegal_eq_of (m : TableMeta) :
    ∀ (values : List Value) (i j : Nat) (v : Value) (f : FieldMeta),
    values[j]? = some v → m.fields[i + j]? = some f → is_legal v f ≠ RC.SUCCESS →
    (∀ k vk fk, k < j → values[k]? = some vk → m.fields[i + k]? = some fk →
      is_legal vk fk = RC.SUCCESS) →
    firstIllegal m values i = is_legal v f := by
  intro values
  induction values with
  | nil => intro i j v f hv; simp at hv
  | cons hd tl ih =>
    intro i j v f hv hf hrc hpre
    cases j with
    | zero =>
      simp only [List.getElem?_cons_zero, Option.some.injEq] at hv
      subst hv
      rw [Nat.add_zero] at hf
      unfold firstIllegal
      rw [hf]
      simp [hrc]
    | succ j =>
      have hlt : i < m.fields.length := by
        by_contra hc
        rw [List.getElem?_eq_none (by omega)] at hf
        cases hf
      have hf0 : m.fields[i]? = some (m.fields[i]) := List.getElem?_eq_getElem hlt
      have hleg := hpre 0 hd (m.fields[i]) (Nat.succ_pos j) (by simp)
        (by rw [Nat.add_zero]; exact hf0)
      unfold firstIllegal
      rw [hf0]
      simp only [hleg, if_pos, reduceIte]
      apply ih (i + 1) j v f
      · simpa using hv
      · rw [show i + 1 + j = i + (j + 1) by omega]
        exact hf
      · exact hrc
      · intro k vk fk hk hvk hfk
        apply hpre (k + 1) vk fk (by omega)
        · simpa using hvk
        · rw [show i + (k + 1) = i + 1 + k by omega]
          exact hfk

/-- C5: a CHARS value longer than the declared column length makes
Table::insert_record answer SCHEMA_FIELD_MISSING and leave the whole table
state (heap and indexes) unchanged, while a CHARS value of length at most the
column length passes the legality check. -/
theorem c5_chars_too_long (s : TableState) (trx : Option Trx) (values : List Value)
    (j : Nat) (v : Value) (f : FieldMeta)
    (harity : values.length + s.meta.sysFieldNum = s.meta.fieldNum)
    (hv : values[j]? = some v)
    (hf : s.meta.fields[s.meta.sysFieldNum + j]? = some f)
    (hvt : v.type = AttrType.CHARS) (hft : f.type = AttrType.CHARS)
    (hlong : f.len < cstrlen v.data)
    (hpre : ∀ k vk fk, k < j → values[k]? = some vk →
      s.meta.fields[s.meta.sysFieldNum + k]? = some fk → is_legal vk fk = RC.SUCCESS) :
    insert_record_values s trx values = (RC.SCHEMA_FIELD_MISSING, s, trx) ∧
    (∀ (w : Value) (g : FieldMeta), w.type = AttrType.CHARS → g.type = AttrType.CHARS →
      cstrlen w.data ≤ g.len → is_legal w g = RC.SUCCESS) := by
  have hlegal : is_legal v f = RC.SCHEMA_FIELD_MISSING := by
    unfold is_legal
    rw [if_neg (by simp [hvt]), if_neg (by simp [hvt, hft]), if_pos (by exact ⟨hvt, hlong⟩)]
  have hloop : firstIllegal s.meta values s.meta.sysFieldNum = RC.SCHEMA_FIELD_MISSING := by
    rw [firstIllegal_eq_of s.meta values s.meta.sysFieldNum j v f hv hf
      (by rw [hlegal]; intro hc; cases hc) hpre]
    exact hlegal
  have hne : values ≠ [] := by
    intro hemp
    rw [hemp] at hv
    simp at hv
  constructor
  · unfold insert_record_values
    rw [if_neg (by simp [hne])]
    unfold make_record
    rw [if_neg (by omega), hloop]
    simp
  · intro w g hwt hgt hlen
    unfold is_legal
    rw [if_neg (by simp [hwt]), if_neg (by simp [hwt, hgt]), if_neg (by simp [hwt]; omega)]

/-- The INT column a of the C5 witness table. -/
def demoFieldA : FieldMeta :=
  { name := "a", type := AttrType.INTS, offset := 4, len := 4, nullable := false }

/-- A concrete table for the C5 witness: an INT column a and a CHAR(4)
column b after the system field. -/
def demoMetaC5 : TableMeta :=
  { name := "t"
    fields := [{ name := "__trx", type := AttrType.INTS, offset := 0, len := 4, nullable := false },
               { name := "a", type := AttrType.INTS, offset := 4, len := 4, nullable := false },
               { name := "b", type := AttrType.CHARS, offset := 8, len := 4, nullable := false }]
    sysFieldNum := 1
    indexes := [] }

/-- The C5 witness state over demoMetaC5. -/
def demoStateC5 : TableState := { meta := demoMetaC5, heap := [], indexes := [] }

/-- The CHARS value "toolong" of the C5 witness. -/
def demoTooLong : Value :=
  { type := AttrType.CHARS, data := [116, 111, 111, 108, 111, 110, 103, 0], is_null := false }

/-- Witness for C5: a CHAR(4) column receiving the seven-byte string
"toolong" (plus a legal INT in the column before it). -/
theorem c5_chars_too_long_witness :
    insert_record_values demoStateC5 none
        [{ type := AttrType.INTS, data := [3, 0, 0, 0], is_null := false }, demoTooLong] =
      (RC.SCHEMA_FIELD_MISSING, demoStateC5, none) ∧
    (∀ (w : Value) (g : FieldMeta), w.type = AttrType.CHARS → g.type = AttrType.CHARS →
      cstrlen w.data ≤ g.len → is_legal w g = RC.SUCCESS) := by
  apply c5_chars_too_long demoStateC5 none _ 1 demoTooLong
    { name := "b", type := AttrType.CHARS, offset := 8, len := 4, nullable := false }
    (by decide) (by decide) (by decide) (by decide) (by decide) (by decide)
  intro k vk fk hk hvk hfk
  interval_cases k
  have hvk2 : vk = { type := AttrType.INTS, data := [3, 0, 0, 0], is_null := false } := by
    simp only [List.getElem?_cons_zero, Option.some.injEq] at hvk
    exact hvk.symm
  have hfk3 : (some demoFieldA : Option FieldMeta) = some fk := by rw [← hfk]; rfl
  have hfk2 : fk = demoFieldA := (Option.some.injEq _ _ ▸ hfk3).symm
  rw [hvk2, hfk2]
  decide

/-! ## Claim C3: record size of the stored bytes -/

/-- A concrete table with one system field and one INT user column, used to
exhibit the size mismatch in C3. -/
def demoMetaInt : TableMeta :=
  { name := "t"
    fields := [{ name := "__trx", type := AttrType.INTS, offset := 0, len := 4, nullable := false },
               { name := "a", type := AttrType.INTS, offset := 4, len := 4, nullable := false }]
    sysFieldNum := 1
    indexes := [] }

/-- C3, at the failing input: with one system field, the buffer built by
make_record has record_size + value_num = 9 bytes, but insert_record passes
record_size + field_num = 10 bytes to the record handler (the expression at
table.cpp line 223), so the stored record is one byte longer than the buffer:
the source reads past the end of the allocation and the claimed equality of
the two lengths fails. -/
theorem c3_record_size_mismatch :
    (make_record demoMetaInt
        [{ type := AttrType.INTS, data := [7, 0, 0, 0], is_null := false }]).map List.length =
      Except.ok (demoMetaInt.recordSize + 1) ∧
    demoMetaInt.recordSize + demoMetaInt.fieldNum = 10 ∧
    demoMetaInt.recordSize + 1 = 9 ∧
    ((insert_record_values { meta := demoMetaInt, heap := [], indexes := [] } none
        [{ type := AttrType.INTS, data := [7, 0, 0, 0], is_null := false }]).2.1.heap.map
      (fun p => p.2.length)) = [10] := by
  refine ⟨rfl, rfl, rfl, rfl⟩

/-! ## Claim C2: atomicity of Table::insert_record -/

theorem le_foldr_max (l : List Nat) (a : Nat) (ha : a ∈ l) : a ≤ l.foldr max 0 := by
  induction l with
  | nil => cases ha
  | cons x xs ih =>
    simp only [List.foldr_cons]
    rcases List.mem_cons.mp ha with h | h
    · subst h; exact le_max_left _ _
    · exact le_trans (ih h) (le_max_right _ _)

/-- A fresh RID is the RID of no live record. -/
theorem freshRid_gt (h : Heap) (p : Nat × List Nat) (hp : p ∈ h) : p.1 < freshRid h := by
  unfold freshRid
  have := le_foldr_max (h.map Prod.fst) p.1 (List.mem_map_of_mem _ hp)
  omega

/-- Deleting a freshly appended record restores the heap. -/
theorem heapDelete_append_fresh (h : Heap) (b : List Nat) :
    (heapDelete (h ++ [(freshRid h, b)]) (freshRid h)).2 = h := by
  unfold heapDelete
  rw [if_pos]
  · rw [List.filter_append]
    have h1 : h.filter (fun p => p.fst != freshRid h) = h := by
      apply List.filter_eq_self.mpr
      intro p hp
      have := freshRid_gt h p hp
      simp only [bne_iff_ne, ne_eq, decide_eq_true_eq]
      omega
    have h2 : ([(freshRid h, b)].filter (fun p => p.fst != freshRid h)) = [] := by simp
    rw [h1, h2, List.append_nil]
  · apply List.any_eq_true.mpr
    exact ⟨(freshRid h, b), List.mem_append_right _ (List.mem_singleton_self _), by simp⟩

/-- delete_entry on an index holding no entry with the given RID misses. -/
theorem delete_entry_miss (idx : IndexState) (rec : List Nat) (rid : Nat)
    (hfresh : ∀ e ∈ idx.entries, e.2 ≠ rid) :
    idx.delete_entry rec rid = (RC.RECORD_INVALID_KEY, idx) := by
  unfold IndexState.delete_entry
  rw [if_neg]
  intro hmem
  exact hfresh _ hmem rfl

/-- The delete loop with error_on_not_exists leaves indexes holding no entry
with the given RID untouched. -/
theorem delete_loop_fresh (rec : List Nat) (rid : Nat) :
    ∀ (idxs : List IndexState) (rc0 : RC),
    (∀ idx ∈ idxs, ∀ e ∈ idx.entries, e.2 ≠ rid) →
    (delete_entry_loop idxs rec rid true rc0).2 = idxs := by
  intro idxs
  induction idxs with
  | nil => intro rc0 _; rfl
  | cons idx rest ih =>
    intro rc0 hfresh
    simp only [delete_entry_loop]
    rw [delete_entry_miss idx rec rid (hfresh idx (List.mem_cons_self _ _))]
    rw [if_pos (Or.inr ⟨rfl, by trivial⟩)]
    simp only []
    rw [ih _ (fun i hi => hfresh i (List.mem_cons_of_mem _ hi))]

/-- Removing a freshly appended entry restores the entry list. -/
theorem removeFirst_append (l : List (List Nat × Nat)) (x : List Nat × Nat) (hx : x ∉ l) :
    removeFirstEntry (l ++ [x]) x = l := by
  induction l with
  | nil => simp [removeFirstEntry]
  | cons e rest ih =>
    rw [List.cons_append]
    unfold removeFirstEntry
    rw [if_neg (by intro he; exact hx (he ▸ List.mem_cons_self _ _))]
    rw [ih (fun hm => hx (List.mem_cons_of_mem _ hm))]

/-- When the index-insert pass of insert_record fails, the compensating
delete pass (error_on_not_exists = true) restores every index exactly,
provided no index held an entry with the fresh RID beforehand. -/
theorem insert_roundtrip_loop (rec : List Nat) (rid : Nat) :
    ∀ (idxs : List IndexState) (rc0 : RC),
    (∀ idx ∈ idxs, ∀ e ∈ idx.entries, e.2 ≠ rid) →
    (insert_entry_of_indexes idxs rec rid).1 ≠ RC.SUCCESS →
    (delete_entry_loop (insert_entry_of_indexes idxs rec rid).2 rec rid true rc0).2 = idxs := by
  intro idxs
  induction idxs with
  | nil => intro rc0 _ hne; exact absurd rfl hne
  | cons idx rest ih =>
    intro rc0 hfresh hne
    by_cases hfail : idx.failNext
    · have hins : insert_entry_of_indexes (idx :: rest) rec rid =
          (RC.GENERIC_ERROR, idx :: rest) := by
        simp [insert_entry_of_indexes, IndexState.insert_entry, hfail]
      rw [hins]
      exact delete_loop_fresh rec rid (idx :: rest) rc0 hfresh
    · have hins : insert_entry_of_indexes (idx :: rest) rec rid =
          ((insert_entry_of_indexes rest rec rid).1,
            { idx with entries := idx.entries ++ [(extractKey idx rec, rid)] } ::
              (insert_entry_of_indexes rest rec rid).2) := by
        simp [insert_entry_of_indexes, IndexState.insert_entry, hfail]
      have hne2 : (insert_entry_of_indexes rest rec rid).1 ≠ RC.SUCCESS := by
        intro hs
        apply hne
        rw [hins, hs]
      rw [hins]
      simp only [delete_entry_loop]
      have hnm : (extractKey idx rec, rid) ∉ idx.entries := by
        intro hm
        exact hfresh idx (List.mem_cons_self _ _) _ hm rfl
      have hdel : IndexState.delete_entry
          { idx with entries := idx.entries ++ [(extractKey idx rec, rid)] } rec rid =
          (RC.SUCCESS, idx) := by
        have hkey : extractKey
            { idx with entries := idx.entries ++ [(extractKey idx rec, rid)] } rec =
            extractKey idx rec := rfl
        unfold IndexState.delete_entry
        try simp only [hkey]
        rw [if_pos (List.mem_append_right _ (List.mem_singleton_self _))]
        rw [removeFirst_append _ _ hnm]
      rw [hdel]
      rw [if_pos (Or.inl rfl)]
      simp only []
      rw [ih _ (fun i hi => hfresh i (List.mem_cons_of_mem _ hi)) hne2]

/-- The index phase of insert_record either succeeds or leaves a state whose
indexes are exactly the original ones and whose heap has the fresh record
deleted again. -/
theorem insertIndexPhase_cases (s : TableState) (trx : Option Trx) (data1 : List Nat)
    (rid : Nat) (hfresh : ∀ idx ∈ s.indexes, ∀ e ∈ idx.entries, e.2 ≠ rid) :
    (insertIndexPhase s trx data1 rid).1 = RC.SUCCESS ∨
    ((insertIndexPhase s trx data1 rid).1 ≠ RC.SUCCESS ∧
      (insertIndexPhase s trx data1 rid).2.1 =
        { s with heap := (heapDelete s.heap rid).2 }) := by
  unfold insertIndexPhase
  by_cases hip : (insert_entry_of_indexes s.indexes data1 rid).1 = RC.SUCCESS
  · left
    rw [if_neg (not_not_intro hip)]
  · right
    rw [if_pos hip]
    refine ⟨hip, ?_⟩
    simp only []
    unfold delete_entry_of_indexes
    rw [insert_roundtrip_loop data1 rid s.indexes RC.SUCCESS hfresh hip]

/-- C2: whenever Table::insert_record answers a non-success code after the
heap insert has happened (the transaction logging or an index insertion
failed), the compensating removals restore the heap and every index, leaving
the table state exactly as before the call. -/
theorem c2_insert_record_atomic (s : TableState) (trx : Option Trx) (data : List Nat)
    (hfresh : ∀ idx ∈ s.indexes, ∀ e ∈ idx.entries, e.2 ≠ freshRid s.heap)
    (hne : (insert_record s trx data).1 ≠ RC.SUCCESS) :
    (insert_record s trx data).2.1 = s := by
  unfold insert_record at hne ⊢
  cases trx with
  | none =>
    simp only [trxStamp] at hne ⊢
    rcases insertIndexPhase_cases
        { s with heap := s.heap ++ [(freshRid s.heap,
            memSrc data (s.meta.recordSize + s.meta.fieldNum))] }
        none data (freshRid s.heap) hfresh with hok | ⟨hf1, hf2⟩
    · exact absurd hok hne
    · rw [hf2]
      simp only []
      rw [heapDelete_append_fresh]
  | some t =>
    by_cases hlog : t.failLogInsert
    · have hr : t.logInsert (freshRid s.heap) = (RC.GENERIC_ERROR, t) := by
        unfold Trx.logInsert; rw [if_pos hlog]
      simp only [hr, trxStamp] at hne ⊢
      rw [if_pos (by intro hc; cases hc)]
      simp only []
      rw [heapDelete_append_fresh]
    · have hr : t.logInsert (freshRid s.heap) =
          (RC.SUCCESS, { t with log := t.log ++ [TrxOp.insertOp (freshRid s.heap)] }) := by
        unfold Trx.logInsert; rw [if_neg hlog]
      simp only [hr, trxStamp] at hne ⊢
      rw [if_neg (by intro hc; exact hc rfl)] at hne ⊢
      rcases insertIndexPhase_cases
          { s with heap := s.heap ++ [(freshRid s.heap,
              memSrc (initTrxInfo t data) (s.meta.recordSize + s.meta.fieldNum))] }
          (some { t with log := t.log ++ [TrxOp.insertOp (freshRid s.heap)] })
          (initTrxInfo t data) (freshRid s.heap) hfresh with hok | ⟨hf1, hf2⟩
      · exact absurd hok hne
      · rw [hf2]
        simp only []
        rw [heapDelete_append_fresh]

/-- A failing index for the C2 witness (the oracle makes insert_entry
fail). -/
def demoFailIdx : IndexState :=
  { meta := { name := "ix", field := "a" }
    keyOff := 4, keyLen := 4, nullOff := 8, entries := [], failNext := true }

/-- Witness for C2: inserting into a table whose single index refuses the
entry leaves the (empty-heap) state unchanged. -/
theorem c2_insert_record_atomic_witness :
    (insert_record { meta := demoMetaInt, heap := [], indexes := [demoFailIdx] } none
        [0, 0, 0, 0, 7, 0, 0, 0, 0]).2.1 =
      { meta := demoMetaInt, heap := [], indexes := [demoFailIdx] } := by
  apply c2_insert_record_atomic
  · intro idx hidx e he
    rcases List.mem_singleton.mp hidx with h
    rw [h] at he
    cases he
  · decide

/-! ## Claim C9: heap scan versus index scan under a limit -/

/-- With a limit at least the number of candidates, the heap-path loop
delivers exactly the visible candidates. -/
theorem scan_record_loop_all (visible : Nat × List Nat → Bool) :
    ∀ (l : List (Nat × List Nat)) (lim : Nat), l.length ≤ lim →
    scan_record_loop visible l lim = l.filter visible := by
  intro l
  induction l with
  | nil => intro lim _; cases lim <;> rfl
  | cons r rest ih =>
    intro lim hlim
    unfold scan_record_loop
    rw [if_neg (by simp at hlim; omega)]
    rw [List.filter_cons]
    by_cases hv : visible r
    · rw [if_pos hv, if_pos hv, ih (lim - 1) (by simp at hlim; omega)]
    · rw [if_neg hv, if_neg hv, ih lim (by simp at hlim; omega)]

/-- With a limit at least the number of fetched entries, the index-path loop
delivers exactly the candidates that are visible and pass the filter. -/
theorem scan_by_index_loop_all (visible passes : Nat × List Nat → Bool) :
    ∀ (l : List (Nat × List Nat)) (lim : Nat), l.length ≤ lim →
    scan_by_index_loop visible passes l lim =
      l.filter (fun r => visible r && passes r) := by
  intro l
  induction l with
  | nil => intro lim _; cases lim <;> rfl
  | cons r rest ih =>
    intro lim hlim
    unfold scan_by_index_loop
    rw [if_neg (by simp at hlim; omega)]
    rw [List.filter_cons]
    by_cases hv : (visible r && passes r) = true
    · rw [if_pos hv, if_pos hv, ih (lim - 1) (by simp at hlim; omega)]
    · rw [if_neg hv, if_neg hv, ih (lim - 1) (by simp at hlim; omega)]

/-- A transaction with id 1 and an empty log, as right after BEGIN. -/
def demoTrx1 : Trx := { id := 1, failLogInsert := false, log := [] }

/-- A record owned by the uncommitted transaction 2: invisible to
transaction 1. -/
def recOwned2 : Nat × List Nat :=
  (1, [2, 0, 0, 0, 7, 0, 0, 0, 102, 111, 111, 0, 0, 0, 0])

/-- A committed record (owner 0, not deleted): visible to everyone. -/
def recCommitted : Nat × List Nat :=
  (2, [0, 0, 0, 0, 8, 0, 0, 0, 98, 97, 114, 0, 0, 0, 0])

/-- Counterexample to C9 as stated: over the same two candidate records (the
first invisible to the scanning transaction), with the finite positive limit
1 the heap path delivers the one visible record while the index path counts
the invisible entry against the limit and delivers nothing, so the delivered
multisets differ. -/
theorem c9_limit_counterexample :
    scan_record_loop (fun p => demoTrx1.is_visible p.2) [recOwned2, recCommitted] 1 =
      [recCommitted] ∧
    scan_by_index_loop (fun p => demoTrx1.is_visible p.2) (fun _ => true)
      [recOwned2, recCommitted] 1 = [] ∧
    (scan_record_loop (fun p => demoTrx1.is_visible p.2) [recOwned2, recCommitted] 1 :
        Multiset (Nat × List Nat)) ≠
      (scan_by_index_loop (fun p => demoTrx1.is_visible p.2) (fun _ => true)
        [recOwned2, recCommitted] 1 : Multiset (Nat × List Nat)) := by
  refine ⟨rfl, rfl, ?_⟩
  intro hc
  have := congrArg Multiset.card hc
  simp [scan_record_loop, scan_by_index_loop, Trx.is_visible, recOwned2, recCommitted,
    demoTrx1, ownerOf, deletedFlag] at this

/-- C9 amended: the two delivery loops of Table::scan_record agree — deliver
the same multiset of records — when the limit does not bite, i.e. when it is
at least the number of candidates on each path (as with limit = -1, mapped to
INT_MAX); the heap scanner hands over the live records passing the filter,
and the premise that these coincide up to permutation with the
filter-passing, visible records fetched through the index is the index
consistency invariant of the spec.  Under a finite limit the paths can
differ, because the index path counts invisible and filtered-out records
against the limit (see the counterexample). -/
theorem c9_scan_paths_agree_unlimited (visible passes : Nat × List Nat → Bool)
    (hs es : List (Nat × List Nat)) (lim1 lim2 : Nat)
    (h1 : hs.length ≤ lim1) (h2 : es.length ≤ lim2)
    (hperm : (hs.filter visible).Perm (es.filter (fun r => visible r && passes r))) :
    (scan_record_loop visible hs lim1 : Multiset (Nat × List Nat)) =
      (scan_by_index_loop visible passes es lim2 : Multiset (Nat × List Nat)) := by
  rw [scan_record_loop_all visible hs lim1 h1,
    scan_by_index_loop_all visible passes es lim2 h2]
  exact Multiset.coe_eq_coe.mpr hperm

/-- Witness for the amended C9 at concrete inputs: both paths over the same
two records with limit 5 deliver the same multiset. -/
theorem c9_scan_paths_agree_unlimited_witness :
    (scan_record_loop (fun p => demoTrx1.is_visible p.2) [recOwned2, recCommitted] 5 :
        Multiset (Nat × List Nat)) =
      (scan_by_index_loop (fun p => demoTrx1.is_visible p.2) (fun _ => true)
        [recOwned2, recCommitted] 5 : Multiset (Nat × List Nat)) :=
  c9_scan_paths_agree_unlimited _ _ _ _ 5 5 (by decide) (by decide) (by decide)

/-! ## Claim C1: rollback after an update -/

/-- The pre-update record of the C1 scenario: owner 0, a = 1, b = "foo",
no null flags set (15 bytes: record_size 12 + field_num 3 as stored by the
heap). -/
def rec0C1 : List Nat := [0, 0, 0, 0, 1, 0, 0, 0, 102, 111, 111, 0, 0, 0, 0]

/-- The table state of the C1 scenario before the update. -/
def s0C1 : TableState := { meta := demoMetaC5, heap := [(1, rec0C1)], indexes := [] }

/-- The CHARS value "bar" of the C1 scenario. -/
def vbarC1 : Value := { type := AttrType.CHARS, data := [98, 97, 114, 0], is_null := false }

/-- C1 amended: Table::update_record never logs an UPDATE entry (the
transactional branch of the source is disabled by if (false)), so for a
transaction begun just before the update (empty log) ROLLBACK undoes nothing:
the state after rollback equals the state right after the update, and the
updated column keeps its new value. -/
theorem c1_rollback_keeps_update (s : TableState) (t : Trx) (rid : Nat)
    (data : List Nat) (attrName : String) (v : Value) (res : RC × TableState × List Nat)
    (hlog : t.log = [])
    (hres : update_record s (some t) rid data attrName v = res) :
    Trx.rollback t res.2.1 = res.2.1 := by
  unfold Trx.rollback
  rw [hlog]
  rfl

/-- Witness for the amended C1: the concrete BEGIN;
UPDATE t SET b = "bar" WHERE a = 1; ROLLBACK scenario. -/
theorem c1_rollback_keeps_update_witness :
    Trx.rollback demoTrx1 (update_record s0C1 (some demoTrx1) 1 rec0C1 "b" vbarC1).2.1 =
      (update_record s0C1 (some demoTrx1) 1 rec0C1 "b" vbarC1).2.1 :=
  c1_rollback_keeps_update s0C1 demoTrx1 1 rec0C1 "b" vbarC1 _ rfl rfl

/-- Counterexample to C1 as stated: in the scenario BEGIN; UPDATE t SET
b = "bar" WHERE a = 1; ROLLBACK, the update succeeds, rollback leaves the
updated state unchanged, the post-rollback state differs from the pre-update
state, and reading column b (offset 8, length 4) yields "bar", not the
pre-update "foo". -/
theorem c1_rollback_counterexample :
    (update_record s0C1 (some demoTrx1) 1 rec0C1 "b" vbarC1).1 = RC.SUCCESS ∧
    Trx.rollback demoTrx1 (update_record s0C1 (some demoTrx1) 1 rec0C1 "b" vbarC1).2.1 ≠ s0C1 ∧
    (heapGet (Trx.rollback demoTrx1
        (update_record s0C1 (some demoTrx1) 1 rec0C1 "b" vbarC1).2.1).heap 1).map
      (fun b => (b.drop 8).take 4) = some [98, 97, 114, 0] ∧
    (heapGet s0C1.heap 1).map (fun b => (b.drop 8).take 4) = some [102, 111, 111, 0] := by
  refine ⟨rfl, by decide, rfl, rfl⟩

/-! ## Claim C10: frame effect of update_record -/

/-- Sequential field layout: each field starts where the previous one ends
(the offsets assigned at table creation, per the spec's record layout). -/
def offsetsFrom : Nat → List FieldMeta → Prop
  | _, [] => True
  | off, f :: rest => f.offset = off ∧ offsetsFrom (off + f.len) rest

theorem offsetsFrom_field_bounds :
    ∀ (fs : List FieldMeta) (off : Nat) (i : Nat) (f : FieldMeta),
    offsetsFrom off fs → fs[i]? = some f →
    off ≤ f.offset ∧ f.offset + f.len ≤ off + (fs.map (fun g => g.len)).sum := by
  intro fs
  induction fs with
  | nil => intro off i f _ hf; simp at hf
  | cons g rest ih =>
    intro off i f hwf hf
    rcases hwf with ⟨hoff, hrest⟩
    cases i with
    | zero =>
      simp only [List.getElem?_cons_zero, Option.some.injEq] at hf
      subst hf
      simp only [List.map_cons, List.sum_cons]
      omega
    | succ i =>
      have := ih (off + g.len) i f hrest (by simpa using hf)
      simp only [List.map_cons, List.sum_cons]
      omega

/-- Every field's payload lies inside the packed record area. -/
theorem field_end_le_recordSize (m : TableMeta) (hwf : offsetsFrom 0 m.fields)
    (i : Nat) (f : FieldMeta) (hf : m.fields[i]? = some f) :
    f.offset + f.len ≤ m.recordSize := by
  have := offsetsFrom_field_bounds m.fields 0 i f hwf hf
  unfold TableMeta.recordSize
  omega

theorem lastField_end :
    ∀ (fs : List FieldMeta) (off : Nat), offsetsFrom off fs → fs ≠ [] →
    ∃ lf, fs[fs.length - 1]? = some lf ∧
      lf.offset + lf.len = off + (fs.map (fun g => g.len)).sum := by
  intro fs
  induction fs with
  | nil => intro off _ hne; exact absurd rfl hne
  | cons g rest ih =>
    intro off hwf hne
    rcases hwf with ⟨hoff, hrest⟩
    cases rest with
    | nil =>
      refine ⟨g, by simp, ?_⟩
      simp only [List.map_cons, List.map_nil, List.sum_cons, List.sum_nil]
      omega
    | cons g2 rest2 =>
      obtain ⟨lf, hlf, hend⟩ := ih (off + g.len) hrest (by simp)
      refine ⟨lf, ?_, ?_⟩
      · have hidx : (g :: g2 :: rest2).length - 1 = rest2.length + 1 := by simp
        rw [hidx, List.getElem?_cons_succ]
        have hidx2 : (g2 :: rest2).length - 1 = rest2.length := by simp
        rw [hidx2] at hlf
        exact hlf
      · simp only [List.map_cons, List.sum_cons] at hend ⊢
        omega

/-- Under a sequential layout, null_field_index is exactly record_size. -/
theorem nfiOf_eq_recordSize (m : TableMeta) (hwf : offsetsFrom 0 m.fields)
    (hne : m.fields ≠ []) : nfiOf m = m.recordSize := by
  obtain ⟨lf, hlf, hend⟩ := lastField_end m.fields 0 hwf hne
  unfold nfiOf TableMeta.fieldNum
  rw [hlf]
  show lf.offset + lf.len = m.recordSize
  unfold TableMeta.recordSize
  omega

/-- heapUpdate never changes the set of RIDs. -/
theorem heapUpdate_fst (h : Heap) (rid : Nat) (b : List Nat) :
    (heapUpdate h rid b).map Prod.fst = h.map Prod.fst := by
  induction h with
  | nil => rfl
  | cons p rest ih =>
    unfold heapUpdate at ih ⊢
    simp only [List.map_cons, List.map_cons]
    have hhead : (if (p.fst == rid) = true then (p.fst, b) else p).fst = p.fst := by
      split <;> rfl
    rw [hhead, ih]

/-- When updateApply succeeds, the written record bytes are exactly the input
bytes with the column payload overwritten and the null-flag byte at
null_field_index + i - 1 overwritten, and the heap is the input heap with
that record replaced. -/
theorem updateApply_success (s : TableState) (idxPos : Option Nat) (rid : Nat)
    (data : List Nat) (i : Nat) (f : FieldMeta) (v : Value)
    (h1 : (updateApply s idxPos rid data i f v).1 = RC.SUCCESS) :
    (updateApply s idxPos rid data i f v).2.2 =
      setByte (writeBytes data f.offset (memSrc v.data f.len)) (nfiOf s.meta + i - 1)
        (if v.is_null then 1 else 0) ∧
    (updateApply s idxPos rid data i f v).2.1.heap =
      heapUpdate s.heap rid
        (setByte (writeBytes data f.offset (memSrc v.data f.len)) (nfiOf s.meta + i - 1)
          (if v.is_null then 1 else 0)) ∧
    (updateApply s idxPos rid data i f v).2.1.meta = s.meta ∧
    is_legal v f = RC.SUCCESS := by
  unfold updateApply at h1 ⊢
  by_cases hleg : is_legal v f = RC.SUCCESS
  · rw [if_neg (not_not_intro hleg)] at h1 ⊢
    by_cases hany : (s.heap.any (fun p => p.fst == rid)) = true
    · rw [if_pos hany] at h1 ⊢
      cases idxPos with
      | none => exact ⟨by trivial, by trivial, by trivial, hleg⟩
      | some j =>
        rcases hidx : s.indexes[j]? with _ | idx
        · simp only [hidx] at h1 ⊢
          exact ⟨by trivial, by trivial, by trivial, hleg⟩
        · simp only [hidx] at h1 ⊢
          by_cases hins : (IndexState.insert_entry idx
              (setByte (writeBytes data f.offset (memSrc v.data f.len))
                (nfiOf s.meta + i - 1) (if v.is_null then 1 else 0)) rid).1 = RC.SUCCESS
          · rw [if_pos hins] at h1 ⊢
            exact ⟨by trivial, by trivial, by trivial, hleg⟩
          · rw [if_neg hins] at h1
            exact absurd h1 hins
    · rw [if_neg hany] at h1
      cases h1
  · rw [if_pos hleg] at h1
    exact absurd h1 hleg

/-- When update_record succeeds on field index i, the written bytes and the
heap are as in updateApply_success. -/
theorem update_record_success (s : TableState) (trx : Option Trx) (rid : Nat)
    (data : List Nat) (attrName : String) (v : Value) (i : Nat) (f : FieldMeta)
    (hi : s.meta.find_field_index_by_name attrName = some i)
    (hf : s.meta.fields[i]? = some f)
    (hres1 : (update_record s trx rid data attrName v).1 = RC.SUCCESS) :
    (update_record s trx rid data attrName v).2.2 =
      setByte (writeBytes data f.offset (memSrc v.data f.len)) (nfiOf s.meta + i - 1)
        (if v.is_null then 1 else 0) ∧
    (update_record s trx rid data attrName v).2.1.heap =
      heapUpdate s.heap rid
        (setByte (writeBytes data f.offset (memSrc v.data f.len)) (nfiOf s.meta + i - 1)
          (if v.is_null then 1 else 0)) ∧
    (update_record s trx rid data attrName v).2.1.meta = s.meta ∧
    is_legal v f = RC.SUCCESS := by
  unfold update_record at hres1 ⊢
  simp only [hi, hf] at hres1 ⊢
  rcases hj : s.indexes.findIdx? (fun idx => idx.meta.name == attrName) with _ | j
  · simp only [hj] at hres1 ⊢
    exact updateApply_success s none rid data i f v hres1
  · simp only [hj] at hres1 ⊢
    rcases hidx : s.indexes[j]? with _ | idx
    · simp only [hidx] at hres1 ⊢
      exact updateApply_success s none rid data i f v hres1
    · simp only [hidx] at hres1 ⊢
      by_cases hdel : (idx.delete_entry data rid).1 = RC.SUCCESS
      · rw [if_neg (not_not_intro hdel)] at hres1 ⊢
        exact updateApply_success _ (some j) rid data i f v hres1
      · rw [if_pos hdel] at hres1
        exact absurd hres1 hdel

/-- C10: when Table::update_record succeeds on one record of a well-formed
table (sequential offsets, one system field, attribute resolving to a user
field at index i), the only bytes of the record that change are the payload
bytes of the named column (offset to offset + length) and the null-flag byte
of that same column (record_size + (i - sys_field_num), which is the byte the
source writes at null_field_index + i - 1); every other byte — other columns,
system header, other null flags — is unchanged, the record length is
unchanged, and the RIDs of the heap are unchanged. -/
theorem c10_update_frame (s : TableState) (trx : Option Trx) (rid : Nat)
    (data : List Nat) (attrName : String) (v : Value) (i : Nat) (f : FieldMeta)
    (hwf : offsetsFrom 0 s.meta.fields)
    (hsys : s.meta.sysFieldNum = 1)
    (hne : s.meta.fields ≠ [])
    (hi : s.meta.find_field_index_by_name attrName = some i)
    (hf : s.meta.fields[i]? = some f)
    (hiu : 1 ≤ i)
    (hdl : s.meta.recordSize + s.meta.userFieldNum ≤ data.length)
    (hres1 : (update_record s trx rid data attrName v).1 = RC.SUCCESS) :
    (update_record s trx rid data attrName v).2.2.length = data.length ∧
    (∀ j, (j < f.offset ∨ f.offset + f.len ≤ j) →
      j ≠ s.meta.recordSize + (i - s.meta.sysFieldNum) →
      (update_record s trx rid data attrName v).2.2.getD j 0 = data.getD j 0) ∧
    (update_record s trx rid data attrName v).2.1.heap.map Prod.fst =
      s.heap.map Prod.fst := by
  obtain ⟨hbytes, hheap, hmeta, hlegal⟩ :=
    update_record_success s trx rid data attrName v i f hi hf hres1
  have hnfi : nfiOf s.meta = s.meta.recordSize := nfiOf_eq_recordSize _ hwf hne
  have hend : f.offset + f.len ≤ s.meta.recordSize :=
    field_end_le_recordSize s.meta hwf i f hf
  have hiLen : i < s.meta.fields.length := by
    by_contra hc
    rw [List.getElem?_eq_none (by omega)] at hf
    cases hf
  have huser : i - 1 < s.meta.userFieldNum := by
    unfold TableMeta.userFieldNum TableMeta.fieldNum
    omega
  have hflag : nfiOf s.meta + i - 1 = s.meta.recordSize + (i - s.meta.sysFieldNum) := by
    rw [hnfi, hsys]
    omega
  have hmlen : (memSrc v.data f.len).length = f.len := memSrc_length _ _
  have hwoff : f.offset + (memSrc v.data f.len).length ≤ data.length := by
    rw [hmlen]; omega
  have hwlen : (writeBytes data f.offset (memSrc v.data f.len)).length = data.length :=
    writeBytes_length _ _ _ hwoff
  have hflagpos : nfiOf s.meta + i - 1 <
      (writeBytes data f.offset (memSrc v.data f.len)).length := by
    rw [hwlen, hflag, hsys]
    omega
  refine ⟨?_, ?_, ?_⟩
  · rw [hbytes, setByte_length _ _ _ hflagpos, hwlen]
  · intro j hj hjne
    rw [hbytes]
    rw [setByte_getD_ne _ _ _ _ hflagpos (by rw [hflag]; exact hjne)]
    rcases hj with hj | hj
    · exact writeBytes_getD_low data _ f.offset j hwoff hj
    · exact writeBytes_getD_high data _ f.offset j hwoff (by rw [hmlen]; omega)
  · rw [hheap, heapUpdate_fst]

/-- Witness for C10: the concrete update of column b to "bar" in the C1
scenario table. -/
theorem c10_update_frame_witness :
    (update_record s0C1 none 1 rec0C1 "b" vbarC1).2.2.length = rec0C1.length ∧
    (∀ j, (j < 8 ∨ 8 + 4 ≤ j) → j ≠ demoMetaC5.recordSize + (2 - demoMetaC5.sysFieldNum) →
      (update_record s0C1 none 1 rec0C1 "b" vbarC1).2.2.getD j 0 = rec0C1.getD j 0) ∧
    (update_record s0C1 none 1 rec0C1 "b" vbarC1).2.1.heap.map Prod.fst =
      s0C1.heap.map Prod.fst := by
  have h := c10_update_frame s0C1 none 1 rec0C1 "b" vbarC1 2
    { name := "b", type := AttrType.CHARS, offset := 8, len := 4, nullable := false }
    (by exact ⟨rfl, rfl, rfl, trivial⟩) rfl (by decide) (by decide) (by decide)
    (by decide) (by decide) (by decide)
  exact h

/-! ## Claim C6: non-nullable columns never hold NULL on disk -/

/-- Values produced by the parser: a value is marked null exactly by carrying
the NULLS type (see value_init_integer/float/string and the yacc actions:
only the NULL literal sets is_null). -/
def wfValue (v : Value) : Prop := v.is_null = true → v.type = AttrType.NULLS

/-- The on-disk invariant of the claim: the null-flag byte of every
non-nullable user column (a flag lives at record_size + u for user column u)
is 0. -/
def recordNullOK (m : TableMeta) (bytes : List Nat) : Prop :=
  ∀ u f, m.fields[u + m.sysFieldNum]? = some f → f.nullable = false →
    bytes.getD (m.recordSize + u) 0 = 0

/-- The table-level invariant: every heap record has the stored length and
satisfies recordNullOK. -/
def stateInv (s : TableState) : Prop :=
  ∀ p ∈ s.heap, p.2.length = s.meta.recordSize + s.meta.fieldNum ∧
    recordNullOK s.meta p.2

theorem nullSentinel_length (t : AttrType) (len : Nat) :
    ∀ s, nullSentinel t len = some s → s.length = len := by
  intro s hs
  cases t <;> simp [nullSentinel] at hs <;> rw [← hs] <;> simp [memSrc] <;> omega

theorem writeOneField_length (m : TableMeta) (nfi i : Nat) (v : Value) (buf : List Nat)
    (hbound : ∀ f, m.fields[i + m.sysFieldNum]? = some f → f.offset + f.len ≤ nfi)
    (hpos : nfi + i < buf.length) :
    (writeOneField m nfi i v buf).length = buf.length := by
  unfold writeOneField
  rcases hfi : m.fields[i + m.sysFieldNum]? with _ | f
  · simp only [hfi]
  · simp only [hfi]
    have hb := hbound f hfi
    by_cases hn : v.is_null = true
    · rw [if_pos hn]
      rcases hsent : nullSentinel f.type f.len with _ | s
      · simp only [hsent]
        exact setByte_length _ _ _ hpos
      · simp only [hsent]
        have hslen : s.length = f.len := nullSentinel_length f.type f.len s hsent
        have hw : (writeBytes buf f.offset s).length = buf.length :=
          writeBytes_length _ _ _ (by omega)
        rw [setByte_length _ _ _ (by rw [hw]; omega), hw]
    · rw [if_neg hn]
      have hw : (writeBytes buf f.offset (memSrc v.data f.len)).length = buf.length :=
        writeBytes_length _ _ _ (by rw [memSrc_length]; omega)
      rw [setByte_length _ _ _ (by rw [hw]; omega), hw]

theorem writeOneField_getD_frame (m : TableMeta) (nfi i : Nat) (v : Value)
    (buf : List Nat) (p : Nat)
    (hbound : ∀ f, m.fields[i + m.sysFieldNum]? = some f → f.offset + f.len ≤ nfi)
    (hpos : nfi + i < buf.length)
    (hp1 : nfi ≤ p) (hp2 : p ≠ nfi + i) :
    (writeOneField m nfi i v buf).getD p 0 = buf.getD p 0 := by
  unfold writeOneField
  rcases hfi : m.fields[i + m.sysFieldNum]? with _ | f
  · simp only [hfi]
  · simp only [hfi]
    have hb := hbound f hfi
    by_cases hn : v.is_null = true
    · rw [if_pos hn]
      rcases hsent : nullSentinel f.type f.len with _ | s
      · simp only [hsent]
        exact setByte_getD_ne _ _ _ _ hpos hp2
      · simp only [hsent]
        have hslen : s.length = f.len := nullSentinel_length f.type f.len s hsent
        have hw : (writeBytes buf f.offset s).length = buf.length :=
          writeBytes_length _ _ _ (by omega)
        rw [setByte_getD_ne _ _ _ _ (by rw [hw]; omega) hp2]
        exact writeBytes_getD_high _ _ _ _ (by omega) (by omega)
    · rw [if_neg hn]
      have hw : (writeBytes buf f.offset (memSrc v.data f.len)).length = buf.length :=
        writeBytes_length _ _ _ (by rw [memSrc_length]; omega)
      rw [setByte_getD_ne _ _ _ _ (by rw [hw]; omega) hp2]
      exact writeBytes_getD_high _ _ _ _ (by rw [memSrc_length]; omega)
        (by rw [memSrc_length]; omega)

theorem writeOneField_flag (m : TableMeta) (nfi i : Nat) (v : Value) (buf : List Nat)
    (f : FieldMeta) (hfi : m.fields[i + m.sysFieldNum]? = some f)
    (hb : f.offset + f.len ≤ nfi) (hpos : nfi + i < buf.length) :
    (writeOneField m nfi i v buf).getD (nfi + i) 0 = (if v.is_null = true then 1 else 0) := by
  unfold writeOneField
  simp only [hfi]
  by_cases hn : v.is_null = true
  · rw [if_pos hn, if_pos hn]
    rcases hsent : nullSentinel f.type f.len with _ | s
    · simp only [hsent]
      exact setByte_getD_eq _ _ _ hpos
    · simp only [hsent]
      have hslen : s.length = f.len := nullSentinel_length f.type f.len s hsent
      have hw : (writeBytes buf f.offset s).length = buf.length :=
        writeBytes_length _ _ _ (by omega)
      exact setByte_getD_eq _ _ _ (by rw [hw]; omega)
  · rw [if_neg hn, if_neg hn]
    have hw : (writeBytes buf f.offset (memSrc v.data f.len)).length = buf.length :=
      writeBytes_length _ _ _ (by rw [memSrc_length]; omega)
    exact setByte_getD_eq _ _ _ (by rw [hw]; omega)

theorem writeFields_length (m : TableMeta) (nfi : Nat) :
    ∀ (values : List Value) (i : Nat) (buf : List Nat),
    (∀ k f, k < values.length → m.fields[i + k + m.sysFieldNum]? = some f →
      f.offset + f.len ≤ nfi) →
    nfi + i + values.length ≤ buf.length →
    (writeFields m nfi values i buf).length = buf.length := by
  intro values
  induction values with
  | nil => intro i buf _ _; rfl
  | cons v rest ih =>
    intro i buf hbound hlen
    unfold writeFields
    have h1 : (writeOneField m nfi i v buf).length = buf.length :=
      writeOneField_length m nfi i v buf
        (fun f hf => hbound 0 f (by simp) (by simpa using hf))
        (by simp at hlen; omega)
    rw [ih (i + 1) _
      (fun k f hk hf => hbound (k + 1) f (by simp; omega)
        (by rw [show i + (k + 1) + m.sysFieldNum = i + 1 + k + m.sysFieldNum by omega]
            exact hf))
      (by rw [h1]; simp at hlen; omega), h1]

theorem writeFields_frame (m : TableMeta) (nfi : Nat) :
    ∀ (values : List Value) (i : Nat) (buf : List Nat) (p : Nat),
    (∀ k f, k < values.length → m.fields[i + k + m.sysFieldNum]? = some f →
      f.offset + f.len ≤ nfi) →
    nfi + i + values.length ≤ buf.length →
    nfi ≤ p → p < nfi + i →
    (writeFields m nfi values i buf).getD p 0 = buf.getD p 0 := by
  intro values
  induction values with
  | nil => intro i buf p _ _ _ _; rfl
  | cons v rest ih =>
    intro i buf p hbound hlen hp1 hp2
    unfold writeFields
    have h1 : (writeOneField m nfi i v buf).length = buf.length :=
      writeOneField_length m nfi i v buf
        (fun f hf => hbound 0 f (by simp) (by simpa using hf))
        (by simp at hlen; omega)
    rw [ih (i + 1) _ p
      (fun k f hk hf => hbound (k + 1) f (by simp; omega)
        (by rw [show i + (k + 1) + m.sysFieldNum = i + 1 + k + m.sysFieldNum by omega]
            exact hf))
      (by rw [h1]; simp at hlen; omega) hp1 (by omega)]
    exact writeOneField_getD_frame m nfi i v buf p
      (fun f hf => hbound 0 f (by simp) (by simpa using hf))
      (by simp at hlen; omega) hp1 (by omega)

theorem writeFields_flag (m : TableMeta) (nfi : Nat) :
    ∀ (values : List Value) (i : Nat) (buf : List Nat) (k : Nat) (v : Value),
    (∀ j f, j < values.length → m.fields[i + j + m.sysFieldNum]? = some f →
      f.offset + f.len ≤ nfi) →
    nfi + i + values.length ≤ buf.length →
    (∀ j, j < values.length → (m.fields[i + j + m.sysFieldNum]?).isSome = true) →
    values[k]? = some v →
    (writeFields m nfi values i buf).getD (nfi + (i + k)) 0 =
      (if v.is_null = true then 1 else 0) := by
  intro values
  induction values with
  | nil => intro i buf k v _ _ _ hv; simp at hv
  | cons hd tl ih =>
    intro i buf k v hbound hlen hsome hv
    unfold writeFields
    have h1 : (writeOneField m nfi i hd buf).length = buf.length :=
      writeOneField_length m nfi i hd buf
        (fun f hf => hbound 0 f (by simp) (by simpa using hf))
        (by simp at hlen; omega)
    cases k with
    | zero =>
      simp only [List.getElem?_cons_zero, Option.some.injEq] at hv
      subst hv
      rw [show nfi + (i + 0) = nfi + i by omega]
      rw [writeFields_frame m nfi tl (i + 1) _ (nfi + i)
        (fun k f hk hf => hbound (k + 1) f (by simp; omega)
          (by rw [show i + (k + 1) + m.sysFieldNum = i + 1 + k + m.sysFieldNum by omega]
              exact hf))
        (by rw [h1]; simp at hlen; omega) (by omega) (by omega)]
      obtain ⟨f, hf⟩ := Option.isSome_iff_exists.mp (hsome 0 (by simp))
      have hf2 : m.fields[i + m.sysFieldNum]? = some f := by simpa using hf
      exact writeOneField_flag m nfi i hd buf f hf2
        (hbound 0 f (by simp) (by simpa using hf)) (by simp at hlen; omega)
    | succ k =>
      rw [show nfi + (i + (k + 1)) = nfi + (i + 1 + k) by omega]
      apply ih (i + 1) _ k v
        (fun j f hj hf => hbound (j + 1) f (by simp; omega)
          (by rw [show i + (j + 1) + m.sysFieldNum = i + 1 + j + m.sysFieldNum by omega]
              exact hf))
        (by rw [h1]; simp at hlen; omega)
        (fun j hj => by
          rw [show i + 1 + j + m.sysFieldNum = i + (j + 1) + m.sysFieldNum by omega]
          exact hsome (j + 1) (by simp; omega))
        (by simpa using hv)

/-- If the legality loop succeeds, every value passed the check against its
column. -/
theorem firstIllegal_success (m : TableMeta) :
    ∀ (values : List Value) (i : Nat), firstIllegal m values i = RC.SUCCESS →
    ∀ k v f, values[k]? = some v → m.fields[i + k]? = some f →
    is_legal v f = RC.SUCCESS := by
  intro values
  induction values with
  | nil => intro i _ k v f hv; simp at hv
  | cons hd tl ih =>
    intro i hloop k v f hv hf
    unfold firstIllegal at hloop
    rcases hfi : m.fields[i]? with _ | g
    · have hlen : m.fields.length ≤ i := by
        by_contra hc
        rw [List.getElem?_eq_getElem (by omega)] at hfi
        cases hfi
      rw [List.getElem?_eq_none (by omega)] at hf
      cases hf
    · simp only [hfi] at hloop
      by_cases hleg : is_legal hd g = RC.SUCCESS
      · rw [if_pos hleg] at hloop
        cases k with
        | zero =>
          simp only [List.getElem?_cons_zero, Option.some.injEq] at hv
          rw [Nat.add_zero, hfi] at hf
          injection hf with hf
          rw [← hv, ← hf]
          exact hleg
        | succ k =>
          apply ih (i + 1) hloop k v f (by simpa using hv)
          rw [show i + 1 + k = i + (k + 1) by omega]
          exact hf
      · rw [if_neg hleg] at hloop
        exact absurd hloop hleg

/-- A parser-produced NULL passing is_legal implies the column is nullable;
contrapositive: a legal value for a non-nullable column is not null. -/
theorem is_legal_nonnullable (v : Value) (f : FieldMeta) (hwfv : wfValue v)
    (hleg : is_legal v f = RC.SUCCESS) (hnn : f.nullable = false) :
    v.is_null = false := by
  by_contra hc
  rw [Bool.not_eq_false] at hc
  have ht := hwfv hc
  unfold is_legal at hleg
  rw [if_pos ⟨ht, hnn⟩] at hleg
  cases hleg

/-- Characterisation of a successful make_record: the arity matched, every
value was legal, the buffer has record_size + value_num bytes, and the
null-flag byte of user column k holds 1 or 0 after the value's own null
marker. -/
theorem make_record_ok (m : TableMeta) (values : List Value) (data : List Nat)
    (hwfo : offsetsFrom 0 m.fields)
    (hne : values ≠ [])
    (hmk : make_record m values = Except.ok data) :
    values.length + m.sysFieldNum = m.fieldNum ∧
    firstIllegal m values m.sysFieldNum = RC.SUCCESS ∧
    data.length = m.recordSize + values.length ∧
    (∀ k v, values[k]? = some v →
      data.getD (m.recordSize + k) 0 = (if v.is_null = true then 1 else 0)) := by
  unfold make_record at hmk
  by_cases harity : values.length + m.sysFieldNum ≠ m.fieldNum
  · rw [if_pos harity] at hmk; cases hmk
  · rw [if_neg harity] at hmk
    push_neg at harity
    by_cases hrc : firstIllegal m values m.sysFieldNum ≠ RC.SUCCESS
    · rw [if_pos hrc] at hmk; cases hmk
    · rw [if_neg hrc] at hmk
      push_neg at hrc
      have hvpos : 1 ≤ values.length := by
        rcases values with _ | ⟨v, rest⟩
        · exact absurd rfl hne
        · simp
      have hfne : m.fields ≠ [] := by
        intro hemp
        have hz : m.fieldNum = 0 := by
          unfold TableMeta.fieldNum
          rw [hemp]
          rfl
        omega
      have hidx : values.length - 1 + m.sysFieldNum = m.fieldNum - 1 := by omega
      have hnfi : (match m.fields[values.length - 1 + m.sysFieldNum]? with
          | some f => f.offset + f.len
          | none => 0) = m.recordSize := by
        rw [hidx]
        exact nfiOf_eq_recordSize m hwfo hfne
      rw [hnfi] at hmk
      injection hmk with hmk
      have hbound : ∀ k f, k < values.length →
          m.fields[0 + k + m.sysFieldNum]? = some f →
          f.offset + f.len ≤ m.recordSize := by
        intro k f _ hf
        exact field_end_le_recordSize m hwfo _ f hf
      have hblen : (List.replicate (m.recordSize + values.length) 0).length =
          m.recordSize + values.length := by simp
      have hlenh : m.recordSize + 0 + values.length ≤
          (List.replicate (m.recordSize + values.length) 0).length := by
        rw [hblen]; omega
      have hsome : ∀ j, j < values.length →
          (m.fields[0 + j + m.sysFieldNum]?).isSome = true := by
        intro j hj
        have : 0 + j + m.sysFieldNum < m.fields.length := by
          unfold TableMeta.fieldNum at harity
          omega
        rw [List.getElem?_eq_getElem this]
        rfl
      refine ⟨harity, hrc, ?_, ?_⟩
      · rw [← hmk, writeFields_length m m.recordSize values 0 _ hbound hlenh, hblen]
      · intro k v hv
        rw [← hmk]
        have := writeFields_flag m m.recordSize values 0
          (List.replicate (m.recordSize + values.length) 0) k v hbound hlenh hsome hv
        rw [show m.recordSize + (0 + k) = m.recordSize + k by omega] at this
        exact this

/-- Characterisation of a successful insert_record: the new heap is the old
heap plus the stored bytes under the fresh RID, and the metadata is
unchanged. -/
theorem insertIndexPhase_success (s : TableState) (trx : Option Trx) (data1 : List Nat)
    (rid : Nat) (h : (insertIndexPhase s trx data1 rid).1 = RC.SUCCESS) :
    (insertIndexPhase s trx data1 rid).2.1.heap = s.heap ∧
    (insertIndexPhase s trx data1 rid).2.1.meta = s.meta := by
  unfold insertIndexPhase at h ⊢
  by_cases hip : (insert_entry_of_indexes s.indexes data1 rid).1 = RC.SUCCESS
  · rw [if_neg (not_not_intro hip)] at h ⊢
    exact ⟨by trivial, by trivial⟩
  · rw [if_pos hip] at h
    exact absurd h hip

theorem insert_record_success (s : TableState) (trx : Option Trx) (data : List Nat)
    (h : (insert_record s trx data).1 = RC.SUCCESS) :
    (insert_record s trx data).2.1.heap =
      s.heap ++ [(freshRid s.heap,
        memSrc (trxStamp trx data) (s.meta.recordSize + s.meta.fieldNum))] ∧
    (insert_record s trx data).2.1.meta = s.meta := by
  unfold insert_record at h ⊢
  cases trx with
  | none =>
    simp only [] at h ⊢
    exact insertIndexPhase_success _ none data (freshRid s.heap) h
  | some t =>
    by_cases hlog : t.failLogInsert
    · have hr : t.logInsert (freshRid s.heap) = (RC.GENERIC_ERROR, t) := by
        unfold Trx.logInsert; rw [if_pos hlog]
      simp only [hr] at h ⊢
      rw [if_pos (by intro hc; cases hc)] at h
      cases h
    · have hr : t.logInsert (freshRid s.heap) =
          (RC.SUCCESS, { t with log := t.log ++ [TrxOp.insertOp (freshRid s.heap)] }) := by
        unfold Trx.logInsert; rw [if_neg hlog]
      simp only [hr] at h ⊢
      rw [if_neg (by intro hc; exact hc rfl)] at h ⊢
      exact insertIndexPhase_success _ _ (initTrxInfo t data) (freshRid s.heap) h

/-- Records of an updated heap: either an untouched record of the old heap or
the newly written bytes. -/
theorem heapUpdate_mem (h : Heap) (rid : Nat) (b : List Nat) (q : Nat × List Nat)
    (hq : q ∈ heapUpdate h rid b) : q ∈ h ∨ q.2 = b := by
  unfold heapUpdate at hq
  obtain ⟨p, hp, hpq⟩ := List.mem_map.mp hq
  by_cases hc : (p.fst == rid) = true
  · rw [if_pos hc] at hpq
    right; rw [← hpq]
  · rw [if_neg hc] at hpq
    left; rw [← hpq]; exact hp

/-- Records surviving a heap delete were records of the old heap. -/
theorem heapDelete_mem (h : Heap) (rid : Nat) (q : Nat × List Nat)
    (hq : q ∈ (heapDelete h rid).2) : q ∈ h := by
  unfold heapDelete at hq
  by_cases hc : (h.any (fun p => p.fst == rid)) = true
  · rw [if_pos hc] at hq
    exact (List.mem_filter.mp hq).1
  · rw [if_neg hc] at hq
    exact hq

/-- The statement-level mutations of one table, as the executor drives them:
a successful insert of parser-produced values, a successful single-record
update of a user column with a parser-produced value, a physical delete, and
a transactional delete mark.  (Scans do not mutate the state.) -/
inductive TableStep : TableState → TableState → Prop where
  | insertStep (s : TableState) (trx : Option Trx) (values : List Value) :
      (∀ v ∈ values, wfValue v) →
      (insert_record_values s trx values).1 = RC.SUCCESS →
      TableStep s (insert_record_values s trx values).2.1
  | updateStep (s : TableState) (trx : Option Trx) (rid : Nat) (data : List Nat)
      (attrName : String) (v : Value) :
      (rid, data) ∈ s.heap →
      wfValue v →
      (∀ i, s.meta.find_field_index_by_name attrName = some i → s.meta.sysFieldNum ≤ i) →
      (update_record s trx rid data attrName v).1 = RC.SUCCESS →
      TableStep s (update_record s trx rid data attrName v).2.1
  | deleteStep (s : TableState) (rid : Nat) :
      TableStep s { s with heap := (heapDelete s.heap rid).2 }
  | deleteMarkStep (s : TableState) (rid : Nat) (data : List Nat) :
      (rid, data) ∈ s.heap →
      TableStep s { s with heap := heapUpdate s.heap rid (setDeletedFlag data) }

/-- make_record never reports an error with the SUCCESS code. -/
theorem make_record_error_ne (m : TableMeta) (values : List Value) (rc : RC)
    (h : make_record m values = Except.error rc) : rc ≠ RC.SUCCESS := by
  unfold make_record at h
  by_cases harity : values.length + m.sysFieldNum ≠ m.fieldNum
  · rw [if_pos harity] at h
    injection h with h
    rw [← h]
    intro hc
    cases hc
  · rw [if_neg harity] at h
    by_cases hrc : firstIllegal m values m.sysFieldNum ≠ RC.SUCCESS
    · rw [if_pos hrc] at h
      injection h with h
      rw [← h]
      exact hrc
    · rw [if_neg hrc] at h
      cases h

/-- C6: over a well-formed table (sequential offsets, the single system
field, a header of at least 4 bytes) every statement-level mutation —
insert through make_record, single-record update, delete — preserves the
invariant that the null flag of every non-nullable user column is 0 on every
heap record: a non-nullable column never holds NULL on disk in any reachable
state. -/
theorem c6_nonnullable_invariant (s s2 : TableState)
    (hwfo : offsetsFrom 0 s.meta.fields)
    (hsys : s.meta.sysFieldNum = 1)
    (hrs4 : 4 ≤ s.meta.recordSize)
    (hstep : TableStep s s2)
    (hinv : stateInv s) : stateInv s2 := by
  cases hstep with
  | insertStep trx values hwfv hsucc =>
    unfold insert_record_values at hsucc ⊢
    by_cases hemp : values.isEmpty
    · rw [if_pos hemp] at hsucc
      cases hsucc
    · rw [if_neg hemp] at hsucc ⊢
      rcases hmk : make_record s.meta values with rc | data
      · simp only [hmk] at hsucc
        exact absurd hsucc (make_record_error_ne s.meta values rc hmk)
      · simp only [hmk] at hsucc ⊢
        obtain ⟨hheap, hmeta⟩ := insert_record_success s trx data hsucc
        obtain ⟨harity, hleg, hdlen, hflags⟩ := make_record_ok s.meta values data hwfo
          (by intro he; rw [he] at hemp; exact hemp rfl) hmk
        intro p hp
        rw [hheap] at hp
        rw [show (insert_record s trx data).2.1.meta = s.meta from hmeta]
        rcases List.mem_append.mp hp with hold | hnew
        · exact hinv p hold
        · rw [List.mem_singleton.mp hnew]
          constructor
          · exact memSrc_length _ _
          · intro u f hf hnn
            have hub : u + s.meta.sysFieldNum < s.meta.fields.length := by
              by_contra hc
              rw [List.getElem?_eq_none (by omega)] at hf
              cases hf
            have hfn : s.meta.fields.length = s.meta.fieldNum := rfl
            have huv : u < values.length := by omega
            have hv : values[u]? = some (values[u]) := List.getElem?_eq_getElem huv
            have hvflag := hflags u (values[u]) hv
            have hvleg := firstIllegal_success s.meta values s.meta.sysFieldNum hleg
              u (values[u]) f hv
              (by rw [show s.meta.sysFieldNum + u = u + s.meta.sysFieldNum by omega]
                  exact hf)
            have hvnull : (values[u]).is_null = false :=
              is_legal_nonnullable _ f (hwfv _ (List.getElem?_mem hv)) hvleg hnn
            have hd1len : (trxStamp trx data).length = data.length := by
              cases trx with
              | none => rfl
              | some t =>
                unfold trxStamp initTrxInfo
                exact writeBytes_length _ _ _ (by simp [natToLE4]; omega)
            have hd1get : (trxStamp trx data).getD (s.meta.recordSize + u) 0 =
                data.getD (s.meta.recordSize + u) 0 := by
              cases trx with
              | none => rfl
              | some t =>
                unfold trxStamp initTrxInfo
                exact writeBytes_getD_high _ _ _ _ (by simp [natToLE4]; omega)
                  (by simp [natToLE4]; omega)
            rw [memSrc_getD _ _ _ (by rw [hd1len]; omega) (by omega), hd1get, hvflag,
              hvnull]
            rfl
  | updateStep trx rid data attrName v hmem hwfv hidx hsucc =>
    rcases hi : s.meta.find_field_index_by_name attrName with _ | i
    · unfold update_record at hsucc
      simp only [hi] at hsucc
      cases hsucc
    · rcases hf : s.meta.fields[i]? with _ | f
      · unfold update_record at hsucc
        simp only [hi, hf] at hsucc
        cases hsucc
      · obtain ⟨hbytes, hheap, hmeta, hlegal⟩ :=
          update_record_success s trx rid data attrName v i f hi hf hsucc
        obtain ⟨hdlen1, hnok1⟩ := hinv (rid, data) hmem
        have hdlen0 : data.length = s.meta.recordSize + s.meta.fieldNum := hdlen1
        have hnok : recordNullOK s.meta data := hnok1
        have hil : i < s.meta.fields.length := by
          by_contra hc
          rw [List.getElem?_eq_none (by omega)] at hf
          cases hf
        have hi1 : 1 ≤ i := by
          have := hidx i hi
          omega
        have hfne : s.meta.fields ≠ [] := by
          intro he
          rw [he] at hil
          simp at hil
        have hnfi : nfiOf s.meta = s.meta.recordSize := nfiOf_eq_recordSize _ hwfo hfne
        have hend : f.offset + f.len ≤ s.meta.recordSize :=
          field_end_le_recordSize s.meta hwfo i f hf
        have hfn : s.meta.fields.length = s.meta.fieldNum := rfl
        have hwoff : f.offset + (memSrc v.data f.len).length ≤ data.length := by
          rw [memSrc_length]
          omega
        have hwlen : (writeBytes data f.offset (memSrc v.data f.len)).length =
            data.length := writeBytes_length _ _ _ hwoff
        have hflagpos : nfiOf s.meta + i - 1 <
            (writeBytes data f.offset (memSrc v.data f.len)).length := by
          rw [hwlen, hnfi]
          omega
        intro p hp
        rw [hmeta]
        rw [hheap] at hp
        rcases heapUpdate_mem s.heap rid _ p hp with hold | hdf
        · exact hinv p hold
        · rw [hdf]
          constructor
          · rw [setByte_length _ _ _ hflagpos, hwlen, hdlen0]
          · intro u f2 hf2 hnn2
            have hub : u + s.meta.sysFieldNum < s.meta.fields.length := by
              by_contra hc
              rw [List.getElem?_eq_none (by omega)] at hf2
              cases hf2
            by_cases hu : u = i - 1
            · have hposeq : s.meta.recordSize + u = nfiOf s.meta + i - 1 := by
                rw [hnfi]
                omega
              rw [hposeq, setByte_getD_eq _ _ _ hflagpos]
              have hf2f : f2 = f := by
                rw [show u + s.meta.sysFieldNum = i by omega, hf] at hf2
                injection hf2 with hf2
                rw [hf2]
              have hvnull : v.is_null = false :=
                is_legal_nonnullable v f hwfv hlegal (by rw [← hf2f]; exact hnn2)
              rw [hvnull]
              rfl
            · rw [setByte_getD_ne _ _ _ _ hflagpos (by rw [hnfi]; omega)]
              rw [writeBytes_getD_high _ _ _ _ hwoff
                (by rw [memSrc_length]; omega)]
              exact hnok u f2 hf2 hnn2
  | deleteStep rid =>
    intro p hp
    exact hinv p (heapDelete_mem s.heap rid p hp)
  | deleteMarkStep rid data hmem =>
    obtain ⟨hdlen1, hnok1⟩ := hinv (rid, data) hmem
    have hdlen0 : data.length = s.meta.recordSize + s.meta.fieldNum := hdlen1
    have hnok : recordNullOK s.meta data := hnok1
    intro p hp
    rcases heapUpdate_mem s.heap rid _ p hp with hold | hdf
    · exact hinv p hold
    · rw [hdf]
      unfold setDeletedFlag
      constructor
      · rw [setByte_length _ _ _ (by omega), hdlen0]
      · intro u f hf hnn
        have h3 : 3 < data.length := by omega
        have hne3 : s.meta.recordSize + u ≠ 3 := by omega
        rw [setByte_getD_ne data 3 _ (s.meta.recordSize + u) h3 hne3]
        exact hnok u f hf hnn

/-- Witness for C6: inserting (1, "foo") into the empty two-column table
preserves the invariant. -/
theorem c6_nonnullable_invariant_witness :
    stateInv (insert_record_values demoStateC5 none
      [{ type := AttrType.INTS, data := [1, 0, 0, 0], is_null := false },
       { type := AttrType.CHARS, data := [102, 111, 111, 0], is_null := false }]).2.1 :=
  c6_nonnullable_invariant demoStateC5 _
    ⟨rfl, rfl, rfl, trivial⟩ rfl (by decide)
    (TableStep.insertStep demoStateC5 none _
      (by
        intro v hv
        unfold wfValue
        intro hn
        rcases List.mem_cons.mp hv with h | h
        · simp [h] at hn
        · rcases List.mem_cons.mp h with h2 | h2
          · simp [h2] at hn
          · exact absurd h2 (List.not_mem_nil v))
      (by decide))
    (by intro p hp; exact absurd hp (List.not_mem_nil p))

/-! ## Claim C4: date literal validation -/

theorem digit_ne_dash (e : Nat) : (48 + e : Nat) ≠ 45 := by omega

theorem date2numAux_cons (len i c : Nat) (rest : List Nat) :
    date2numAux len i (c :: rest) = date2numStep len i c (date2numAux len (i + 1) rest) := rfl

theorem date2numAux_nil (len i : Nat) : date2numAux len i [] = (0, 1) := rfl

/-- A digit character contributes its value at the current magnitude. -/
theorem date2numStep_digit (len i e : Nat) (acc : Nat × Nat) :
    date2numStep len i (48 + e) acc = (acc.1 + acc.2 * e, acc.2 * 10) := by
  unfold date2numStep
  rw [if_pos (digit_ne_dash e)]
  rw [Nat.add_sub_cancel_left]

/-- A dash adjusts the magnitude depending on its position. -/
theorem date2numStep_dash (len i : Nat) (acc : Nat × Nat) :
    date2numStep len i 45 acc =
      (if i = len - 2 then (acc.1, acc.2 * 10)
       else if i = len - 5 then (if acc.2 = 1000 then (acc.1, acc.2 * 10) else (acc.1, acc.2))
       else if i = len - 4 then (acc.1, acc.2 * 10)
       else (acc.1, acc.2)) := by
  unfold date2numStep
  rw [if_neg (by omega)]

/-- date2num parses every string of the date literal shape into the packed
integer YYYYMMDD, across all four digit-width combinations. -/
theorem date2num_dateLit (y m d : Nat) (m2 d2 : Bool)
    (hy : y ≤ 9999) (hm : m ≤ 99) (hd : d ≤ 99)
    (hm1 : m2 = false → m ≤ 9) (hd1 : d2 = false → d ≤ 9) :
    date2num (dateLit y m d m2 d2) = y * 10000 + m * 100 + d := by
  cases m2 with
  | true =>
    cases d2 with
    | true =>
      have hs : dateLit y m d true true =
          [48 + y / 1000 % 10, 48 + y / 100 % 10, 48 + y / 10 % 10, 48 + y % 10, 45,
           48 + m / 10 % 10, 48 + m % 10, 45, 48 + d / 10 % 10, 48 + d % 10] := by
        simp [dateLit, digit4, digit2]
      rw [hs]
      have h0 : date2num
          [48 + y / 1000 % 10, 48 + y / 100 % 10, 48 + y / 10 % 10, 48 + y % 10, 45,
           48 + m / 10 % 10, 48 + m % 10, 45, 48 + d / 10 % 10, 48 + d % 10] =
          (date2numAux 10 0
            [48 + y / 1000 % 10, 48 + y / 100 % 10, 48 + y / 10 % 10, 48 + y % 10, 45,
             48 + m / 10 % 10, 48 + m % 10, 45, 48 + d / 10 % 10, 48 + d % 10]).1 := rfl
      rw [h0]
      simp only [date2numAux_cons, date2numAux_nil]
      simp only [date2numStep_digit, date2numStep_dash]
      norm_num
      omega
    | false =>
      have hd9 : d ≤ 9 := hd1 rfl
      have hs : dateLit y m d true false =
          [48 + y / 1000 % 10, 48 + y / 100 % 10, 48 + y / 10 % 10, 48 + y % 10, 45,
           48 + m / 10 % 10, 48 + m % 10, 45, 48 + d % 10] := by
        simp [dateLit, digit4, digit2, digit1]
      rw [hs]
      have h0 : date2num
          [48 + y / 1000 % 10, 48 + y / 100 % 10, 48 + y / 10 % 10, 48 + y % 10, 45,
           48 + m / 10 % 10, 48 + m % 10, 45, 48 + d % 10] =
          (date2numAux 9 0
            [48 + y / 1000 % 10, 48 + y / 100 % 10, 48 + y / 10 % 10, 48 + y % 10, 45,
             48 + m / 10 % 10, 48 + m % 10, 45, 48 + d % 10]).1 := rfl
      rw [h0]
      simp only [date2numAux_cons, date2numAux_nil]
      simp only [date2numStep_digit, date2numStep_dash]
      norm_num
      omega
  | false =>
    have hm9 : m ≤ 9 := hm1 rfl
    cases d2 with
    | true =>
      have hs : dateLit y m d false true =
          [48 + y / 1000 % 10, 48 + y / 100 % 10, 48 + y / 10 % 10, 48 + y % 10, 45,
           48 + m % 10, 45, 48 + d / 10 % 10, 48 + d % 10] := by
        simp [dateLit, digit4, digit2, digit1]
      rw [hs]
      have h0 : date2num
          [48 + y / 1000 % 10, 48 + y / 100 % 10, 48 + y / 10 % 10, 48 + y % 10, 45,
           48 + m % 10, 45, 48 + d / 10 % 10, 48 + d % 10] =
          (date2numAux 9 0
            [48 + y / 1000 % 10, 48 + y / 100 % 10, 48 + y / 10 % 10, 48 + y % 10, 45,
             48 + m % 10, 45, 48 + d / 10 % 10, 48 + d % 10]).1 := rfl
      rw [h0]
      simp only [date2numAux_cons, date2numAux_nil]
      simp only [date2numStep_digit, date2numStep_dash]
      norm_num
      omega
    | false =>
      have hd9 : d ≤ 9 := hd1 rfl
      have hs : dateLit y m d false false =
          [48 + y / 1000 % 10, 48 + y / 100 % 10, 48 + y / 10 % 10, 48 + y % 10, 45,
           48 + m % 10, 45, 48 + d % 10] := by
        simp [dateLit, digit4, digit1]
      rw [hs]
      have h0 : date2num
          [48 + y / 1000 % 10, 48 + y / 100 % 10, 48 + y / 10 % 10, 48 + y % 10, 45,
           48 + m % 10, 45, 48 + d % 10] =
          (date2numAux 8 0
            [48 + y / 1000 % 10, 48 + y / 100 % 10, 48 + y / 10 % 10, 48 + y % 10, 45,
             48 + m % 10, 45, 48 + d % 10]).1 := rfl
      rw [h0]
      simp only [date2numAux_cons, date2numAux_nil]
      simp only [date2numStep_digit, date2numStep_dash]
      norm_num
      omega

/-- The byte string "2021-02-29". -/
def dateBytes29 : List Nat := [50, 48, 50, 49, 45, 48, 50, 45, 50, 57]

/-- The table d (x DATE) of the C4 scenario, with its system field. -/
def demoMetaDate : TableMeta :=
  { name := "d"
    fields := [{ name := "__trx", type := AttrType.INTS, offset := 0, len := 4, nullable := false },
               { name := "x", type := AttrType.DATES, offset := 4, len := 4, nullable := false }]
    sysFieldNum := 1
    indexes := [] }

/-- The empty state of table d. -/
def demoStateDate : TableState := { meta := demoMetaDate, heap := [], indexes := [] }

set_option maxHeartbeats 3200000 in
/-- C4: for every string of the date literal shape yyyy-m(m)-d(d), the packed
integer computed by check_date_data_convert is YYYYMMDD, and the validation
accepts (t stays non-zero) iff the packed integer lies in
[19700101, 20380131] and (y, m, d) is a possible Gregorian calendar date;
moreover the literal "2021-02-29" is demoted to CHARS by value_init_string,
so inserting it into the DATE column x fails with a type mismatch and adds no
row. -/
theorem c4_date_validation (y m d : Nat) (m2 d2 : Bool)
    (hy : y ≤ 9999) (hm : m ≤ 99) (hd : d ≤ 99)
    (hm1 : m2 = false → m ≤ 9) (hd1 : d2 = false → d ≤ 9) :
    (check_date_data_convert (dateLit y m d m2 d2) 1).1 = y * 10000 + m * 100 + d ∧
    ((check_date_data_convert (dateLit y m d m2 d2) 1).2 ≠ 0 ↔
      (19700101 ≤ y * 10000 + m * 100 + d ∧ y * 10000 + m * 100 + d ≤ 20380131 ∧
        validGregorianDate y m d)) ∧
    (value_init_string dateBytes29 false).type = AttrType.CHARS ∧
    (insert_record_values demoStateDate none [value_init_string dateBytes29 false]).1 =
      RC.SCHEMA_FIELD_TYPE_MISMATCH ∧
    (insert_record_values demoStateDate none [value_init_string dateBytes29 false]).2.1 =
      demoStateDate := by
  have hnum := date2num_dateLit y m d m2 d2 hy hm hd hm1 hd1
  have hdd : (y * 10000 + m * 100 + d) % 100 = d := by omega
  have hmm : (y * 10000 + m * 100 + d) % 10000 / 100 = m := by omega
  have hyy : (y * 10000 + m * 100 + d) / 10000 = y := by omega
  refine ⟨?_, ?_, rfl, rfl, rfl⟩
  · simp only [check_date_data_convert, hnum]
  · simp only [check_date_data_convert, hnum, hdd, hmm, hyy]
    unfold validGregorianDate monthLength isLeapGregorian
    simp only [decide_eq_true_eq]
    split_ifs <;> omega

/-- Witness for C4 at the concrete literal "2021-2-29" (one-digit month
form): rejected, and indeed 2021 is no leap year. -/
theorem c4_date_validation_witness :
    (check_date_data_convert (dateLit 2021 2 29 false true) 1).1 =
      2021 * 10000 + 2 * 100 + 29 ∧
    ((check_date_data_convert (dateLit 2021 2 29 false true) 1).2 ≠ 0 ↔
      (19700101 ≤ 2021 * 10000 + 2 * 100 + 29 ∧
        2021 * 10000 + 2 * 100 + 29 ≤ 20380131 ∧ validGregorianDate 2021 2 29)) ∧
    (value_init_string dateBytes29 false).type = AttrType.CHARS ∧
    (insert_record_values demoStateDate none [value_init_string dateBytes29 false]).1 =
      RC.SCHEMA_FIELD_TYPE_MISMATCH ∧
    (insert_record_values demoStateDate none [value_init_string dateBytes29 false]).2.1 =
      demoStateDate :=
  c4_date_validation 2021 2 29 false true (by decide) (by decide) (by decide)
    (by intro h; decide) (by intro h; cases h)

end MiniDB
